import Mathlib

/-!
# A shallow embedding of the `Despait/library` lending engine

This file embeds the lending domain engine of `1.py` (classes `User`,
`Librarian`, `Author`, `Book`, `Loan` and `LibrarySystem`) and proves the
spec claims about it.

Modelling conventions:
* SQLite tables become lists of row structures inside `DB`; the
  AUTOINCREMENT sequences become explicit `next_*` counters.
* The single long-lived connection is modelled by the pair
  `committed`/`pending` inside `LS`: `execute` acts on `pending`
  (the connection sees its own uncommitted writes), `commit` copies
  `pending` into `committed` and `rollback` copies `committed` back.
* Python objects are mutable and aliased (a `Loan` holds the same `Book`
  object that sits in the engine's `_books` cache), so `Book` and `User`
  objects live on explicit heaps (`book_heap`, `user_heap`) addressed by
  index; allocation appends, nothing is ever freed.
* `datetime` values are integer seconds; `timedelta(days=14)` is
  `14 * 86400` seconds.
* The `librarians` table and the Tkinter presentation layer are not used
  by any claimed operation and are not modelled.
-/

namespace Library

/-- Row of the `authors` table
(`id INTEGER PRIMARY KEY AUTOINCREMENT, name TEXT NOT NULL UNIQUE, bio TEXT`).
Also serves as the in-memory `Author` object: the engine never mutates a
loaded `Author` (its `set_bio` is never called by `LibrarySystem`). -/
structure AuthorRow where
  id : Nat
  name : String
  bio : String
deriving Repr, DecidableEq

/-- Row of the `books` table
(`id, title, author_id REFERENCES authors, year CHECK(year > 0), status`). -/
structure BookRow where
  id : Nat
  title : String
  author_id : Nat
  year : Int
  status : String
deriving Repr, DecidableEq

/-- Row of the `users` table (`id INTEGER PRIMARY KEY AUTOINCREMENT, name`). -/
structure UserRow where
  id : Nat
  name : String
deriving Repr, DecidableEq

/-- Row of the `loans` table
(`id, book_id, user_id, issue_date, return_date NULLABLE`). -/
structure LoanRow where
  id : Nat
  book_id : Nat
  user_id : Nat
  issue_date : Int
  return_date : Option Int
deriving Repr, DecidableEq

/-- The SQLite database state relevant to the claims. -/
structure DB where
  authors : List AuthorRow
  books : List BookRow
  users : List UserRow
  loans : List LoanRow
  next_author_id : Nat
  next_book_id : Nat
  next_user_id : Nat
  next_loan_id : Nat
deriving Repr, DecidableEq

/-- A freshly created store (`CREATE TABLE IF NOT EXISTS ...` on a new file);
AUTOINCREMENT ids start at 1. -/
def DB.empty : DB := ⟨[], [], [], [], 1, 1, 1, 1⟩

/-- In-memory `Book` object (`class Book` fields
`_id, _title, _author, _year, _status`); it holds its `Author` by value
because loaded `Author` objects are immutable in the engine. -/
structure BookObj where
  id : Nat
  title : String
  author : AuthorRow
  year : Int
  status : String
deriving Repr, DecidableEq

def BookObj.default0 : BookObj := ⟨0, "", ⟨0, "", ""⟩, 0, ""⟩

/-- In-memory `User` object (`class User` fields `_name, _id, _borrowed_books`);
`borrowed` holds heap addresses of `Book` objects. -/
structure UserObj where
  id : Nat
  name : String
  borrowed : List Nat
deriving Repr, DecidableEq

def UserObj.default0 : UserObj := ⟨0, "", []⟩

/-- In-memory `Loan` object (`class Loan`); `book_ref`/`user_ref` are heap
addresses of the referenced `Book`/`User` objects. -/
structure LoanObj where
  id : Nat
  book_ref : Nat
  user_ref : Nat
  issue_date : Int
  return_date : Option Int
deriving Repr, DecidableEq

/-- `User.MAX_BOOKS`. -/
def MAX_BOOKS : Nat := 3

/-- `Loan.LOAN_DAYS`. -/
def LOAN_DAYS : Int := 14

/-- `Book.is_available`: the status string is compared with `"доступна"`. -/
def is_available (b : BookObj) : Bool := b.status == "доступна"

/-- `User.borrow_book`: appends iff the held count is `< MAX_BOOKS`. -/
def UserObj.borrow_book (u : UserObj) (b : Nat) : Bool × UserObj :=
  if u.borrowed.length < MAX_BOOKS then (true, { u with borrowed := u.borrowed ++ [b] })
  else (false, u)

/-- `User.return_book`: `list.remove` drops the first occurrence of the exact
object (identity equality on our heap addresses); absent means failure. -/
def UserObj.return_book (u : UserObj) (b : Nat) : Bool × UserObj :=
  if u.borrowed.contains b then (true, { u with borrowed := u.borrowed.erase b })
  else (false, u)

/-- `Loan.return_book`: unconditionally records the return date. -/
def LoanObj.return_book (l : LoanObj) (d : Int) : LoanObj := { l with return_date := some d }

/-- `Loan.is_overdue`: an open loan is overdue when `now` strictly exceeds
`issue_date + timedelta(days=LOAN_DAYS)`; a closed loan never is. -/
def LoanObj.is_overdue (l : LoanObj) (now : Int) : Bool :=
  match l.return_date with
  | none => decide (now > l.issue_date + LOAN_DAYS * 86400)
  | some _ => false

/-- `LibrarySystem._get_author_by_id` (SELECT by primary key). -/
def DB.get_author_by_id (db : DB) (aid : Nat) : Option AuthorRow :=
  db.authors.find? (fun a => a.id == aid)

/-- `LibrarySystem._get_user_by_id`: builds a fresh `User` object (with an
empty borrowed list) from the row. -/
def DB.get_user_by_id (db : DB) (uid : Nat) : Option UserRow :=
  db.users.find? (fun u => u.id == uid)

/-- `LibrarySystem._get_book_by_id`: resolves the row and its author; the
result is dropped when either is missing. -/
def DB.get_book_by_id (db : DB) (bid : Nat) : Option BookObj :=
  match db.books.find? (fun b => b.id == bid) with
  | none => none
  | some b =>
    match db.get_author_by_id b.author_id with
    | none => none
    | some a => some ⟨b.id, b.title, a, b.year, b.status⟩

/-- The `Book` objects built by `_load_books`: one per book row whose author
resolves; rows with a dangling `author_id` are silently dropped. -/
def load_book_objs (db : DB) : List BookObj :=
  db.books.filterMap
    (fun b => (db.get_author_by_id b.author_id).map
      (fun a => ⟨b.id, b.title, a, b.year, b.status⟩))

/-- UPDATE books SET status=? WHERE id=?. -/
def DB.set_book_status (db : DB) (bid : Nat) (st : String) : DB :=
  { db with books := db.books.map (fun r => if r.id == bid then { r with status := st } else r) }

/-- The full engine state: the store (committed and connection-pending views)
plus the in-memory caches of `LibrarySystem`. -/
structure LS where
  committed : DB
  pending : DB
  book_heap : List BookObj
  user_heap : List UserObj
  books : List Nat
  users : List Nat
  authors : List AuthorRow
  loans : List LoanObj
deriving Repr, DecidableEq

def LS.book_at (s : LS) (a : Nat) : BookObj := s.book_heap.getD a BookObj.default0

def LS.user_at (s : LS) (a : Nat) : UserObj := s.user_heap.getD a UserObj.default0

/-- Mutate the `Book` object at heap address `a` in place. -/
def LS.upd_book (s : LS) (a : Nat) (f : BookObj → BookObj) : LS :=
  { s with book_heap := s.book_heap.set a (f (s.book_heap.getD a BookObj.default0)) }

/-- Mutate the `User` object at heap address `a` in place. -/
def LS.upd_user (s : LS) (a : Nat) (f : UserObj → UserObj) : LS :=
  { s with user_heap := s.user_heap.set a (f (s.user_heap.getD a UserObj.default0)) }

/-- `self._conn.commit()`. -/
def LS.commit (s : LS) : LS := { s with committed := s.pending }

/-- `self._conn.rollback()`. -/
def LS.rollback (s : LS) : LS := { s with pending := s.committed }

/-- `self._books = self._load_books()`: allocates a fresh `Book` object per
loaded row and repoints the cache at them. -/
def LS.reload_books (s : LS) : LS :=
  let objs := load_book_objs s.pending
  { s with book_heap := s.book_heap ++ objs,
           books := List.range' s.book_heap.length objs.length }

/-- The common tail `self._conn.commit(); self._books = self._load_books()`
of the catalog mutators, with `p` the connection state being committed. -/
def LS.commit_and_reload_books (s : LS) (p : DB) : LS :=
  ({ s with pending := p }).commit.reload_books

/-- `self._users = self._load_users()`: fresh `User` objects, each with an
empty `_borrowed_books` list. -/
def LS.reload_users (s : LS) : LS :=
  let objs := s.pending.users.map (fun r => UserObj.mk r.id r.name [])
  { s with user_heap := s.user_heap ++ objs,
           users := List.range' s.user_heap.length objs.length }

/-- Helper for `_load_loans`: walks the loan rows in order, allocating a fresh
`Book` and a fresh `User` object per resolvable row (via `_get_book_by_id` /
`_get_user_by_id`); unresolvable rows are dropped. -/
def load_loans_aux (db : DB) (bh : List BookObj) (uh : List UserObj) :
    List LoanRow → List BookObj × List UserObj × List LoanObj
  | [] => (bh, uh, [])
  | r :: rest =>
    match db.get_book_by_id r.book_id, db.get_user_by_id r.user_id with
    | some bobj, some urow =>
      let l : LoanObj := ⟨r.id, bh.length, uh.length, r.issue_date, r.return_date⟩
      let rec2 := load_loans_aux db (bh ++ [bobj]) (uh ++ [UserObj.mk urow.id urow.name []]) rest
      (rec2.1, rec2.2.1, l :: rec2.2.2)
    | _, _ => load_loans_aux db bh uh rest

/-- `self._loans = self._load_loans()`. -/
def LS.reload_loans (s : LS) : LS :=
  let r := load_loans_aux s.pending s.book_heap s.user_heap s.pending.loans
  { s with book_heap := r.1, user_heap := r.2.1, loans := r.2.2 }

/-- `LibrarySystem._init_demo_data`: seeds two authors, two books and two
users; a duplicate author name raises an integrity error, which is caught,
rolled back, and leaves the caches as loaded. -/
def LS.init_demo_data (s : LS) : LS :=
  if s.pending.authors.any (fun a => a.name == "Лев Толстой") ||
     s.pending.authors.any (fun a => a.name == "Фёдор Достоевский") then
    s.rollback
  else
    let p := s.pending
    let a1 := p.next_author_id
    let p := { p with
      authors := p.authors ++
        [AuthorRow.mk a1 "Лев Толстой" "Великий русский писатель",
         AuthorRow.mk (a1 + 1) "Фёдор Достоевский" "Классик русской литературы"],
      next_author_id := a1 + 2 }
    let b1 := p.next_book_id
    let p := { p with
      books := p.books ++
        [BookRow.mk b1 "Война и мир" a1 1869 "доступна",
         BookRow.mk (b1 + 1) "Преступление и наказание" (a1 + 1) 1866 "доступна"],
      next_book_id := b1 + 2 }
    let u1 := p.next_user_id
    let p := { p with
      users := p.users ++ [UserRow.mk u1 "Иван Иванов", UserRow.mk (u1 + 1) "Мария Петрова"],
      next_user_id := u1 + 2 }
    let s := ({ s with pending := p }).commit
    let s := s.reload_books
    let s := s.reload_users
    { s with authors := s.pending.authors }

/-- `LibrarySystem.__init__` on an existing store: loads books, users, loans
and authors (in source order; librarians are irrelevant here), then seeds the
demo data when the book cache came up empty. -/
def construct (db : DB) : LS :=
  let s : LS := { committed := db, pending := db, book_heap := [], user_heap := [],
                  books := [], users := [], authors := [], loans := [] }
  let s := s.reload_books
  let s := s.reload_users
  let s := s.reload_loans
  let s := { s with authors := s.pending.authors }
  if s.books.isEmpty then s.init_demo_data else s

/-- `next((u for u in self._users if u.get_id() == user_id), None)`. -/
def LS.find_user_addr (s : LS) (uid : Nat) : Option Nat :=
  s.users.find? (fun a => (s.user_at a).id == uid)

/-- `next((b for b in self._books if b.get_id() == book_id), None)`. -/
def LS.find_book_addr (s : LS) (bid : Nat) : Option Nat :=
  s.books.find? (fun a => (s.book_at a).id == bid)

/-- `LibrarySystem.add_book`: reuses an existing author row by exact name,
otherwise inserts one (the only moment a bio is written); inserting a book
with `year <= 0` violates `CHECK(year > 0)`, raising an integrity error that
is caught: the transaction is rolled back and the call returns `false`.
On success it commits and reloads the book and author caches. -/
def LS.add_book (s : LS) (title author_name author_bio : String) (year : Int) : Bool × LS :=
  let p := s.pending
  let found := p.authors.find? (fun a => a.name == author_name)
  let aid := match found with
    | some a => a.id
    | none => p.next_author_id
  let p := match found with
    | some _ => p
    | none => { p with authors := p.authors ++ [AuthorRow.mk p.next_author_id author_name author_bio],
                       next_author_id := p.next_author_id + 1 }
  if year ≤ 0 then
    (false, ({ s with pending := p }).rollback)
  else
    let p := { p with books := p.books ++ [BookRow.mk p.next_book_id title aid year "доступна"],
                      next_book_id := p.next_book_id + 1 }
    let s := s.commit_and_reload_books p
    let s := { s with authors := s.pending.authors }
    (true, s)

/-- `LibrarySystem.remove_book`: unconditional `DELETE FROM books WHERE id=?`;
returns `True` whether or not any row matched. -/
def LS.remove_book (s : LS) (bid : Nat) : Bool × LS :=
  let p := { s.pending with books := s.pending.books.filter (fun r => !(r.id == bid)) }
  let s := s.commit_and_reload_books p
  (true, s)

/-- Result of `edit_book`: `raised` models the `ValueError` escaping to the
caller (the source only catches `sqlite3.Error`), carrying the state with the
already-issued updates still pending and uncommitted. -/
inductive EditResult where
  | ok : LS → Bool → EditResult
  | raised : LS → EditResult
deriving Repr, DecidableEq

/-- Tail of `edit_book` after the year check: the optional author-bio UPDATE
(whose subquery resolves the book's `author_id` on the connection), then
commit and reload of the book cache only. -/
def LS.edit_book_tail (s : LS) (bid : Nat) (author_bio : Option String) (p : DB) : EditResult :=
  let p :=
    match author_bio with
    | some b =>
      match (p.books.find? (fun r => r.id == bid)).map (fun r => r.author_id) with
      | some aid =>
        { p with authors := p.authors.map (fun a => if a.id == aid then { a with bio := b } else a) }
      | none => p
    | none => p
  let s := s.commit_and_reload_books p
  .ok s true

/-- `LibrarySystem.edit_book`: each provided field gets its own UPDATE, in
source order title, year, author bio; a provided `year <= 0` raises
`ValueError` after the title UPDATE was already issued, so nothing is
committed but the title change is left pending on the connection. -/
def LS.edit_book (s : LS) (bid : Nat) (title : Option String) (year : Option Int)
    (author_bio : Option String) : EditResult :=
  let p :=
    match title with
    | some t => { s.pending with
        books := s.pending.books.map (fun r => if r.id == bid then { r with title := t } else r) }
    | none => s.pending
  match year with
  | some y =>
    if y > 0 then
      s.edit_book_tail bid author_bio
        { p with books := p.books.map (fun r => if r.id == bid then { r with year := y } else r) }
    else .raised { s with pending := p }
  | none => s.edit_book_tail bid author_bio p

/-- `LibrarySystem.register_user`: INSERT, commit, and append a fresh `User`
object to the cache; returns (the heap address of) the new user. -/
def LS.register_user (s : LS) (name : String) : Nat × LS :=
  let uid := s.pending.next_user_id
  let p := { s.pending with users := s.pending.users ++ [UserRow.mk uid name], next_user_id := uid + 1 }
  let s := ({ s with pending := p }).commit
  let addr := s.user_heap.length
  let s := { s with user_heap := s.user_heap ++ [UserObj.mk uid name []], users := s.users ++ [addr] }
  (addr, s)

/-- `LibrarySystem.edit_user`: UPDATE + commit, then rename the first matching
cached `User` object in place. -/
def LS.edit_user (s : LS) (uid : Nat) (name : String) : Bool × LS :=
  let p := { s.pending with
    users := s.pending.users.map (fun r => if r.id == uid then { r with name := name } else r) }
  let s := ({ s with pending := p }).commit
  let s :=
    match s.find_user_addr uid with
    | some a => s.upd_user a (fun u => { u with name := name })
    | none => s
  (true, s)

/-- `LibrarySystem.delete_user`: DELETE + commit, then drop the user from the
cache list (the object survives on the heap, still referenced by loans). -/
def LS.delete_user (s : LS) (uid : Nat) : Bool × LS :=
  let p := { s.pending with users := s.pending.users.filter (fun r => !(r.id == uid)) }
  let s := ({ s with pending := p }).commit
  let s := { s with users := s.users.filter (fun a => !((s.user_at a).id == uid)) }
  (true, s)

/-- `LibrarySystem.issue_book`: the four preconditions in source order (user
found in the user cache, book found in the book cache, book available, held
count below `MAX_BOOKS`), each failure returning `None`; on success the loan
row is inserted and the book status flipped in one committed transaction,
then the cached `Book` object, the user's held list and the loan cache are
updated in place. -/
def LS.issue_book (s : LS) (now : Int) (user_id book_id : Nat) : Option LoanObj × LS :=
  match s.find_user_addr user_id with
  | none => (none, s)
  | some ua =>
    match s.find_book_addr book_id with
    | none => (none, s)
    | some ba =>
      if !(is_available (s.book_at ba)) then (none, s)
      else if MAX_BOOKS ≤ (s.user_at ua).borrowed.length then (none, s)
      else
        let loan_id := s.pending.next_loan_id
        let p := { s.pending with
          loans := s.pending.loans ++ [LoanRow.mk loan_id book_id user_id now none],
          next_loan_id := loan_id + 1 }
        let p := p.set_book_status book_id "выдана"
        let s := ({ s with pending := p }).commit
        let loan : LoanObj := ⟨loan_id, ba, ua, now, none⟩
        let s := s.upd_book ba (fun b => { b with status := "выдана" })
        let s := s.upd_user ua (fun u => (u.borrow_book ba).2)
        let s := { s with loans := s.loans ++ [loan] }
        (some loan, s)

/-- Replace the return date of the first cached loan with the given id
(Python mutates the object produced by `next(...)`). -/
def set_loan_return : List LoanObj → Nat → Int → List LoanObj
  | [], _, _ => []
  | l :: ls, lid, d =>
    if l.id == lid then { l with return_date := some d } :: ls
    else l :: set_loan_return ls lid d

/-- `LibrarySystem.return_book`: fails on an unknown or already-closed loan
id; otherwise closes the loan row and flips the book row to available in one
committed transaction, then updates the loan object, its `Book` object and
the borrowing user's held list in place. -/
def LS.return_book (s : LS) (now : Int) (lid : Nat) : Bool × LS :=
  match s.loans.find? (fun l => l.id == lid) with
  | none => (false, s)
  | some l =>
    if l.return_date.isSome then (false, s)
    else
      let bid := (s.book_at l.book_ref).id
      let p := { s.pending with
        loans := s.pending.loans.map
          (fun (r : LoanRow) => if r.id == lid then { r with return_date := some now } else r) }
      let p := p.set_book_status bid "доступна"
      let s := ({ s with pending := p }).commit
      let s := { s with loans := set_loan_return s.loans lid now }
      let s := s.upd_book l.book_ref (fun b => { b with status := "доступна" })
      let s := s.upd_user l.user_ref (fun u => (u.return_book l.book_ref).2)
      (true, s)

/-- `LibrarySystem.get_active_loans`. -/
def LS.get_active_loans (s : LS) : List LoanObj :=
  s.loans.filter (fun l => l.return_date.isNone)

/-- The book fields readable through `get_books()`, as rows
(id, title, author id, year, status), for comparison with the store. -/
def LS.cache_book_rows (s : LS) : List BookRow :=
  s.books.map (fun a => let b := s.book_at a; BookRow.mk b.id b.title b.author.id b.year b.status)

/-! ## Generic list helpers -/

theorem getD_set_self {α : Type _} (l : List α) (i : Nat) (a d : α) (h : i < l.length) :
    (l.set i a).getD i d = a := by
  rw [List.getD_eq_getElem _ _ (by simpa using h)]
  exact List.getElem_set_self _

theorem getD_set_ne {α : Type _} (l : List α) (i j : Nat) (a d : α) (h : i ≠ j) :
    (l.set i a).getD j d = l.getD j d := by
  rcases Nat.lt_or_ge j l.length with hj | hj
  · rw [List.getD_eq_getElem _ _ (by simpa using hj), List.getD_eq_getElem _ _ hj]
    exact List.getElem_set_ne h _
  · rw [List.getD_eq_default _ _ (by simpa using hj), List.getD_eq_default _ _ hj]

theorem getD_append_lt {α : Type _} (l l' : List α) (d : α) (n : Nat) (h : n < l.length) :
    (l ++ l').getD n d = l.getD n d :=
  List.getD_append _ _ _ _ h

/-- Reading back a block of freshly appended objects by their addresses. -/
theorem map_getD_range' {α : Type _} (d : α) :
    ∀ (objs h : List α), (List.range' h.length objs.length).map (fun a => (h ++ objs).getD a d) = objs := by
  intro objs
  induction objs with
  | nil => intro h; simp
  | cons o rest ih =>
    intro h
    rw [List.length_cons, List.range'_succ, List.map_cons]
    congr 1
    · rw [List.getD_append_right _ _ _ _ (Nat.le_refl _), Nat.sub_self]
      rfl
    · have := ih (h ++ [o])
      simpa [List.append_assoc] using this

/-! ## Claim C8: overdue boundary -/

/-- Claim C8: `is_overdue` returns true exactly when the loan is open and the
current time strictly exceeds the issue date plus 14 days; an open loan issued
14 days + 1 second ago is overdue, one issued 14 days - 1 second ago is not,
and a closed loan is never overdue regardless of age. -/
theorem is_overdue_boundary :
    (∀ (l : LoanObj) (now : Int),
        l.is_overdue now = true ↔ (l.return_date = none ∧ l.issue_date + LOAN_DAYS * 86400 < now))
  ∧ (∀ (l : LoanObj) (now : Int), l.return_date = none →
        l.issue_date = now - (LOAN_DAYS * 86400 + 1) → l.is_overdue now = true)
  ∧ (∀ (l : LoanObj) (now : Int), l.return_date = none →
        l.issue_date = now - (LOAN_DAYS * 86400 - 1) → l.is_overdue now = false)
  ∧ (∀ (l : LoanObj) (now d : Int), l.return_date = some d → l.is_overdue now = false) := by
  refine ⟨?_, ?_, ?_, ?_⟩
  · intro l now
    cases h : l.return_date with
    | none => simp [LoanObj.is_overdue, h, gt_iff_lt]
    | some d => simp [LoanObj.is_overdue, h]
  · intro l now h hi
    simp only [LoanObj.is_overdue, h, hi, LOAN_DAYS]
    rw [decide_eq_true_iff]
    omega
  · intro l now h hi
    simp only [LoanObj.is_overdue, h, hi, LOAN_DAYS]
    rw [decide_eq_false_iff_not]
    omega
  · intro l now d h
    simp [LoanObj.is_overdue, h]

/-- Witness for C8: the two boundary loans and a closed old loan, at `now = 0`. -/
theorem is_overdue_boundary_witness :
    (LoanObj.mk 1 0 0 (-1209601) none).is_overdue 0 = true
  ∧ (LoanObj.mk 1 0 0 (-1209599) none).is_overdue 0 = false
  ∧ (LoanObj.mk 1 0 0 (-9999999) (some (-1))).is_overdue 0 = false :=
  ⟨is_overdue_boundary.2.1 _ 0 rfl (by decide),
   is_overdue_boundary.2.2.1 _ 0 rfl (by decide),
   is_overdue_boundary.2.2.2 _ 0 (-1) rfl⟩

/-! ## Claim C10: remove_book always reports success -/

/-- Claim C10: `remove_book` returns `True` for every book id, whether or not
a stored book matches it (absent a database error); deleting a missing book is
indistinguishable from deleting an existing one. -/
theorem remove_book_always_true (s : LS) (bid : Nat) : (s.remove_book bid).1 = true := rfl

/-- Witness for C10: removing a book id that matches nothing still returns true. -/
theorem remove_book_always_true_witness :
    ((construct DB.empty).remove_book 999).1 = true ∧
    (construct DB.empty).pending.books.find? (fun r => r.id == 999) = none :=
  ⟨remove_book_always_true (construct DB.empty) 999, by decide⟩

/-! ## Claim C6: edit_book with a non-positive year -/

/-- Claim C6: `edit_book` with a provided `year <= 0` aborts the whole call
with a validation error surfaced to the immediate caller (the uncaught
`ValueError`), and no field update issued in that call is committed: the
stored book and author rows, and every cache, are unchanged. -/
theorem edit_book_nonpositive_year (s : LS) (bid : Nat) (t : Option String) (y : Int)
    (author_bio : Option String) (hy : y ≤ 0) :
    ∃ s', s.edit_book bid t (some y) author_bio = .raised s'
      ∧ s'.committed = s.committed
      ∧ s'.books = s.books ∧ s'.authors = s.authors ∧ s'.loans = s.loans
      ∧ s'.book_heap = s.book_heap ∧ s'.user_heap = s.user_heap ∧ s'.users = s.users := by
  have hneg : ¬ (y > 0) := by omega
  cases t with
  | none =>
    simp only [LS.edit_book, hneg, if_false, ite_false]
    exact ⟨_, rfl, rfl, rfl, rfl, rfl, rfl, rfl, rfl⟩
  | some t0 =>
    simp only [LS.edit_book, hneg, if_false, ite_false]
    exact ⟨_, rfl, rfl, rfl, rfl, rfl, rfl, rfl, rfl⟩

/-- Witness for C6: a concrete failed edit (new title plus year -5) leaves the
stored rows of the demo library untouched. -/
theorem edit_book_nonpositive_year_witness :
    ∃ s', (construct DB.empty).edit_book 1 (some "T2") (some (-5)) (some "b2") = .raised s'
      ∧ s'.committed = (construct DB.empty).committed
      ∧ s'.books = (construct DB.empty).books ∧ s'.authors = (construct DB.empty).authors
      ∧ s'.loans = (construct DB.empty).loans
      ∧ s'.book_heap = (construct DB.empty).book_heap
      ∧ s'.user_heap = (construct DB.empty).user_heap
      ∧ s'.users = (construct DB.empty).users :=
  edit_book_nonpositive_year (construct DB.empty) 1 (some "T2") (-5) (some "b2") (by decide)

/-! ## Claim C1: issue_book preconditions and effects -/

/-- Claim C1: `issue_book` checks its preconditions in source order — user
found, book found, book available, held count `< MAX_BOOKS` — with the first
failure winning and every failure returning `None` (never an exception, as the
total return type shows); on success it returns a newly created loan whose
issue date is `now`, flips the cached book to `"выдана"`, appends the book to
the user's held list and appends the loan to the loan cache, committing the
store in the same call. -/
theorem issue_book_spec (s : LS) (now : Int) (uid bid : Nat) :
    (s.find_user_addr uid = none → s.issue_book now uid bid = (none, s))
  ∧ (∀ ua, s.find_user_addr uid = some ua → s.find_book_addr bid = none →
       s.issue_book now uid bid = (none, s))
  ∧ (∀ ua ba, s.find_user_addr uid = some ua → s.find_book_addr bid = some ba →
       is_available (s.book_at ba) = false → s.issue_book now uid bid = (none, s))
  ∧ (∀ ua ba, s.find_user_addr uid = some ua → s.find_book_addr bid = some ba →
       is_available (s.book_at ba) = true → MAX_BOOKS ≤ (s.user_at ua).borrowed.length →
       s.issue_book now uid bid = (none, s))
  ∧ (∀ ua ba, s.find_user_addr uid = some ua → s.find_book_addr bid = some ba →
       is_available (s.book_at ba) = true → (s.user_at ua).borrowed.length < MAX_BOOKS →
       ba < s.book_heap.length → ua < s.user_heap.length →
       ∃ loan s',
         s.issue_book now uid bid = (some loan, s')
         ∧ loan.issue_date = now
         ∧ loan.id = s.pending.next_loan_id
         ∧ loan.book_ref = ba ∧ loan.user_ref = ua ∧ loan.return_date = none
         ∧ (s'.book_at ba).status = "выдана"
         ∧ (s'.user_at ua).borrowed = (s.user_at ua).borrowed ++ [ba]
         ∧ s'.loans = s.loans ++ [loan]
         ∧ s'.committed = s'.pending)
  ∧ ((s.issue_book now uid bid).1 = none ↔
       ¬ ∃ ua ba, s.find_user_addr uid = some ua ∧ s.find_book_addr bid = some ba ∧
           is_available (s.book_at ba) = true ∧ (s.user_at ua).borrowed.length < MAX_BOOKS) := by
  refine ⟨?_, ?_, ?_, ?_, ?_, ?_⟩
  · intro hu
    simp [LS.issue_book, hu]
  · intro ua hu hb
    simp [LS.issue_book, hu, hb]
  · intro ua ba hu hb ha
    simp [LS.issue_book, hu, hb, ha]
  · intro ua ba hu hb ha hc
    simp [LS.issue_book, hu, hb, ha, hc]
  · intro ua ba hu hb ha hlen hba hua
    have hc : ¬ (MAX_BOOKS ≤ (s.user_at ua).borrowed.length) := by omega
    simp only [LS.issue_book, hu, hb, ha, Bool.not_true, Bool.false_eq_true, if_false,
      ite_false, hc]
    refine ⟨_, _, rfl, rfl, rfl, rfl, rfl, rfl, ?_, ?_, rfl, rfl⟩
    · simp only [LS.book_at, LS.upd_user, LS.upd_book, LS.commit]
      rw [getD_set_self _ _ _ _ hba]
    · simp only [LS.user_at, LS.upd_user, LS.upd_book, LS.commit]
      rw [getD_set_self _ _ _ _ (by simpa using hua)]
      simp only [UserObj.borrow_book, LS.user_at] at hlen ⊢
      rw [if_pos hlen]
  · rcases hu : s.find_user_addr uid with _ | ua
    · constructor
      · rintro - ⟨ua, ba, hu2, -⟩
        exact Option.noConfusion hu2
      · intro h
        simp [LS.issue_book, hu]
    · rcases hb : s.find_book_addr bid with _ | ba
      · constructor
        · rintro - ⟨ua2, ba, -, hb2, -⟩
          exact Option.noConfusion hb2
        · intro h
          simp [LS.issue_book, hu, hb]
      · by_cases ha : is_available (s.book_at ba) = true
        · by_cases hc : MAX_BOOKS ≤ (s.user_at ua).borrowed.length
          · constructor
            · rintro - ⟨ua2, ba2, hu2, hb2, -, hl2⟩
              injection hu2 with h1
              subst h1
              omega
            · intro h
              simp [LS.issue_book, hu, hb, ha, hc]
          · constructor
            · intro hnone
              simp only [LS.issue_book, hu, hb, ha, Bool.not_true, Bool.false_eq_true,
                if_false, ite_false, hc] at hnone
              exact Option.noConfusion hnone
            · intro h
              exact absurd ⟨ua, ba, rfl, rfl, ha, by omega⟩ h
        · constructor
          · rintro - ⟨ua2, ba2, hu2, hb2, ha2, -⟩
            injection hb2 with h1
            subst h1
            exact ha ha2
          · intro h
            have ha2 : is_available (s.book_at ba) = false := by
              cases h2 : is_available (s.book_at ba)
              · rfl
              · exact absurd h2 ha
            simp [LS.issue_book, hu, hb, ha2]

/-- Witness for C1: issuing demo book 1 to demo user 1 on a fresh store
succeeds with all the stated effects. -/
theorem issue_book_spec_witness :
    ∃ loan s',
      (construct DB.empty).issue_book 0 1 1 = (some loan, s')
      ∧ loan.issue_date = 0
      ∧ loan.id = (construct DB.empty).pending.next_loan_id
      ∧ loan.book_ref = 0 ∧ loan.user_ref = 0 ∧ loan.return_date = none
      ∧ (s'.book_at 0).status = "выдана"
      ∧ (s'.user_at 0).borrowed = ((construct DB.empty).user_at 0).borrowed ++ [0]
      ∧ s'.loans = (construct DB.empty).loans ++ [loan]
      ∧ s'.committed = s'.pending :=
  (issue_book_spec (construct DB.empty) 0 1 1).2.2.2.2.1 0 0 (by decide) (by decide)
    (by decide) (by decide) (by decide) (by decide)

/-! ## Claim C7: return_book idempotence -/

/-- Closing the first matching loan leaves it findable, now closed. -/
theorem find?_set_loan_return (d : Int) (lid : Nat) :
    ∀ (ls : List LoanObj) (l : LoanObj),
      ls.find? (fun x => x.id == lid) = some l →
      (set_loan_return ls lid d).find? (fun x => x.id == lid) =
        some { l with return_date := some d } := by
  intro ls
  induction ls with
  | nil => intro l h; exact Option.noConfusion h
  | cons a as ih =>
    intro l h
    by_cases ha : (a.id == lid) = true
    · rw [@List.find?_cons_of_pos _ (fun x => x.id == lid) a as ha] at h
      cases h
      simp only [set_loan_return, ha, if_true, ite_true]
      exact List.find?_cons_of_pos _ ha
    · rw [@List.find?_cons_of_neg _ (fun x => x.id == lid) a as ha] at h
      have ha2 := ha
      rw [Bool.not_eq_true] at ha2
      simp only [set_loan_return, ha2, Bool.false_eq_true, if_false, ite_false]
      rw [@List.find?_cons_of_neg _ (fun x => x.id == lid) a (set_loan_return as lid d) ha]
      exact ih l h

/-- A second `return_book` on an already-closed cached loan fails and leaves
the state untouched. -/
theorem return_book_on_closed (s2 : LS) (now2 : Int) (lid : Nat) (l2 : LoanObj)
    (hf2 : s2.loans.find? (fun x => x.id == lid) = some l2)
    (hc : l2.return_date.isSome = true) : s2.return_book now2 lid = (false, s2) := by
  simp [LS.return_book, hf2, hc]

/-- The loan cache after a successful return. -/
theorem return_book_loans_eq (s : LS) (now : Int) (lid : Nat) (l : LoanObj)
    (hf : s.loans.find? (fun x => x.id == lid) = some l) (ho : l.return_date = none) :
    ((s.return_book now lid).2).loans = set_loan_return s.loans lid now := by
  simp [LS.return_book, hf, ho, LS.upd_book, LS.upd_user, LS.commit]

/-- Claim C7: for an open cached loan, `return_book` succeeds exactly once —
the first call returns `True` and flips the loan's book object to available,
any repeated call on the same id returns `False` and changes nothing — and a
`return_book` on an unknown or already-closed loan id returns `False` with the
state unchanged. -/
theorem return_book_idempotent (s : LS) (now now2 : Int) (lid : Nat) :
    (∀ l, s.loans.find? (fun x => x.id == lid) = some l → l.return_date = none →
        (s.return_book now lid).1 = true
        ∧ (l.book_ref < s.book_heap.length →
             ((s.return_book now lid).2.book_at l.book_ref).status = "доступна")
        ∧ (s.return_book now lid).2.return_book now2 lid = (false, (s.return_book now lid).2))
  ∧ (s.loans.find? (fun x => x.id == lid) = none → s.return_book now lid = (false, s))
  ∧ (∀ l d, s.loans.find? (fun x => x.id == lid) = some l → l.return_date = some d →
        s.return_book now lid = (false, s)) := by
  refine ⟨?_, ?_, ?_⟩
  · intro l hf ho
    refine ⟨?_, ?_, ?_⟩
    · simp [LS.return_book, hf, ho]
    · intro hlt
      simp only [LS.return_book, hf, ho, Option.isSome_none, Bool.false_eq_true, if_false,
        ite_false, LS.book_at, LS.upd_book, LS.upd_user, LS.commit]
      rw [getD_set_self _ _ _ _ hlt]
    · have hfc : ((s.return_book now lid).2).loans.find? (fun x => x.id == lid) =
          some { l with return_date := some now } := by
        rw [return_book_loans_eq s now lid l hf ho]
        exact find?_set_loan_return now lid s.loans l hf
      exact return_book_on_closed _ now2 lid _ hfc rfl
  · intro hf
    simp [LS.return_book, hf]
  · intro l d hf hd
    simp [LS.return_book, hf, hd]

/-- Witness for C7: issue demo book 1 to demo user 1, then return the loan
twice — the first return succeeds and frees the book, the second fails. -/
theorem return_book_idempotent_witness :
    ((((construct DB.empty).issue_book 0 1 1).2).return_book 5 1).1 = true
    ∧ (0 < (((construct DB.empty).issue_book 0 1 1).2).book_heap.length →
        (((((construct DB.empty).issue_book 0 1 1).2).return_book 5 1).2.book_at 0).status =
          "доступна")
    ∧ ((((construct DB.empty).issue_book 0 1 1).2).return_book 5 1).2.return_book 6 1 =
        (false, ((((construct DB.empty).issue_book 0 1 1).2).return_book 5 1).2) := by
  have h := (return_book_idempotent (((construct DB.empty).issue_book 0 1 1).2) 5 6 1).1
      ⟨1, 0, 0, 0, none⟩ (by decide) rfl
  exact ⟨h.1, fun h0 => h.2.1 (by decide), h.2.2⟩

/-! ## Claim C9: add_book reuses the author row -/

/-- A sequence of `add_book` calls sharing one author name; each element of
`calls` is (title, bio, year). -/
def add_book_seq (s : LS) (author_name : String) : List (String × String × Int) → LS
  | [] => s
  | c :: rest => add_book_seq (s.add_book c.1 author_name c.2.1 c.2.2).2 author_name rest

/-- `add_book` when the author name already has a row: the author table is
untouched and the new book row references the existing author id. -/
theorem add_book_found_fields (s : LS) (t n b : String) (y : Int) (a : AuthorRow)
    (hf : s.pending.authors.find? (fun x => x.name == n) = some a) (hy : 0 < y) :
    ((s.add_book t n b y).2).pending.authors = s.pending.authors
    ∧ ((s.add_book t n b y).2).pending.books =
        s.pending.books ++ [BookRow.mk s.pending.next_book_id t a.id y "доступна"]
    ∧ ((s.add_book t n b y).2).committed = ((s.add_book t n b y).2).pending := by
  have hneg : ¬ (y ≤ 0) := by omega
  refine ⟨?_, ?_, ?_⟩ <;>
    simp [LS.add_book, hf, hneg, LS.commit_and_reload_books, LS.commit, LS.reload_books]

/-- `add_book` when the author name is new: a single author row carrying the
passed bio is inserted, and the new book row references it. -/
theorem add_book_not_found_fields (s : LS) (t n b : String) (y : Int)
    (hf : s.pending.authors.find? (fun x => x.name == n) = none) (hy : 0 < y) :
    ((s.add_book t n b y).2).pending.authors =
        s.pending.authors ++ [AuthorRow.mk s.pending.next_author_id n b]
    ∧ ((s.add_book t n b y).2).pending.books =
        s.pending.books ++ [BookRow.mk s.pending.next_book_id t s.pending.next_author_id y "доступна"]
    ∧ ((s.add_book t n b y).2).committed = ((s.add_book t n b y).2).pending := by
  have hneg : ¬ (y ≤ 0) := by omega
  refine ⟨?_, ?_, ?_⟩ <;>
    simp [LS.add_book, hf, hneg, LS.commit_and_reload_books, LS.commit, LS.reload_books]

/-- Once the author row for `n` exists (everything before it in the table has
a different name), further `add_book` calls with name `n` never touch the
author table and stamp every inserted book row with that author's id. -/
theorem add_book_seq_reuse (n : String) (aid : Nat) (bio1 : String) :
    ∀ (calls : List (String × String × Int)) (s0 : LS) (A0 : List AuthorRow),
      (∀ d ∈ calls, 0 < d.2.2) →
      s0.committed = s0.pending →
      s0.pending.authors = A0 ++ [AuthorRow.mk aid n bio1] →
      (∀ x ∈ A0, (x.name == n) = false) →
      (add_book_seq s0 n calls).committed.authors = s0.pending.authors ∧
      ∃ new, (add_book_seq s0 n calls).committed.books = s0.pending.books ++ new ∧
             ∀ r ∈ new, r.author_id = aid := by
  intro calls
  induction calls with
  | nil =>
    intro s0 A0 hys hcp hA hA0
    refine ⟨by rw [add_book_seq, hcp], ⟨[], by rw [add_book_seq, hcp, List.append_nil], ?_⟩⟩
    intro r hr
    exact absurd hr (List.not_mem_nil r)
  | cons c rest ih =>
    intro s0 A0 hys hcp hA hA0
    have hy : 0 < c.2.2 := hys c (List.mem_cons_self c rest)
    have hfind : s0.pending.authors.find? (fun x => x.name == n) = some (AuthorRow.mk aid n bio1) := by
      rw [hA, List.find?_append]
      have h1 : A0.find? (fun x => x.name == n) = none :=
        List.find?_eq_none.2 (fun x hx => by simp [hA0 x hx])
      rw [h1, Option.none_or]
      exact List.find?_cons_of_pos _ (by simp)
    obtain ⟨e1, e2, e3⟩ := add_book_found_fields s0 c.1 n c.2.1 c.2.2 _ hfind hy
    have ihr := ih ((s0.add_book c.1 n c.2.1 c.2.2).2) A0
      (fun d hd => hys d (List.mem_cons_of_mem c hd)) e3 (by rw [e1, hA]) hA0
    rw [add_book_seq]
    refine ⟨by rw [ihr.1, e1], ?_⟩
    obtain ⟨new, hb, hnew⟩ := ihr.2
    refine ⟨BookRow.mk s0.pending.next_book_id c.1 aid c.2.2 "доступна" :: new, ?_, ?_⟩
    · rw [hb, e2, List.append_assoc]
      rfl
    · intro r hr
      rcases List.mem_cons.1 hr with h | h
      · rw [h]
      · exact hnew r h

/-- Claim C9: in any run of `add_book` calls sharing one author name (with
valid years) starting from a store with no author of that name, only the
first call creates an author row — carrying the first call's bio, never
overwritten — every later call stamps its book with that same author id, and
exactly one author row with that name exists afterwards. -/
theorem add_book_author_dedup (s : LS) (n : String)
    (c : String × String × Int) (rest : List (String × String × Int))
    (h0 : ∀ x ∈ s.pending.authors, (x.name == n) = false)
    (hy : 0 < c.2.2) (hys : ∀ d ∈ rest, 0 < d.2.2) :
    ((add_book_seq s n (c :: rest)).committed.authors.filter (fun x => x.name == n)) =
      [AuthorRow.mk s.pending.next_author_id n c.2.1]
  ∧ ∃ new, (add_book_seq s n (c :: rest)).committed.books = s.pending.books ++ new
      ∧ new ≠ []
      ∧ ∀ r ∈ new, r.author_id = s.pending.next_author_id := by
  have hfind : s.pending.authors.find? (fun x => x.name == n) = none :=
    List.find?_eq_none.2 (fun x hx => by simp [h0 x hx])
  obtain ⟨e1, e2, e3⟩ := add_book_not_found_fields s c.1 n c.2.1 c.2.2 hfind hy
  have ihr := add_book_seq_reuse n s.pending.next_author_id c.2.1 rest
    ((s.add_book c.1 n c.2.1 c.2.2).2) s.pending.authors hys e3 e1 h0
  rw [add_book_seq]
  constructor
  · rw [ihr.1, e1, List.filter_append]
    have h1 : s.pending.authors.filter (fun x => x.name == n) = [] :=
      List.filter_eq_nil_iff.2 (fun x hx => by simp [h0 x hx])
    rw [h1]
    simp
  · obtain ⟨new, hb, hnew⟩ := ihr.2
    refine ⟨BookRow.mk s.pending.next_book_id c.1 s.pending.next_author_id c.2.2 "доступна" :: new,
      ?_, by simp, ?_⟩
    · rw [hb, e2, List.append_assoc]
      rfl
    · intro r hr
      rcases List.mem_cons.1 hr with h | h
      · rw [h]
      · exact hnew r h

/-- Witness for C9: two `add_book` calls for author "X" on a fresh demo store
leave exactly one "X" row, holding the first bio, and both new books point at
it. -/
theorem add_book_author_dedup_witness :
    ((add_book_seq (construct DB.empty) "X" [("B1", "bio1", 2000), ("B2", "bio2", 2001)]).committed.authors.filter
        (fun x => x.name == "X")) =
      [AuthorRow.mk (construct DB.empty).pending.next_author_id "X" "bio1"]
  ∧ ∃ new, (add_book_seq (construct DB.empty) "X" [("B1", "bio1", 2000), ("B2", "bio2", 2001)]).committed.books =
        (construct DB.empty).pending.books ++ new
      ∧ new ≠ []
      ∧ ∀ r ∈ new, r.author_id = (construct DB.empty).pending.next_author_id :=
  add_book_author_dedup (construct DB.empty) "X" ("B1", "bio1", 2000) [("B2", "bio2", 2001)]
    (by decide) (by decide) (by decide)

/-! ## Claims C3 and C4: what reload actually does to users -/

/-- Claim C3 fails on the code (evaluation at the failing input): on a fresh
store, register a user (id 3) and add two books ("B1", "B2"; demo seeding
already provides books 1 and 2); after three successful issues the fourth is
refused — but reconstructing the engine from the very same store resets the
user's held list, the fourth issue is then granted, and the store ends up
with four open loans for user 3. -/
theorem reload_breaks_capacity :
    (let s := construct DB.empty
     let s := (s.register_user "U").2
     let s := (s.add_book "B1" "A" "bio" 2000).2
     let s := (s.add_book "B2" "A" "bio" 2000).2
     let s := (s.issue_book 10 3 1).2
     let s := (s.issue_book 11 3 2).2
     let s := (s.issue_book 12 3 3).2
     ((s.issue_book 13 3 4).1,
      ((construct s.committed).issue_book 13 3 4).1.isSome,
      (((construct s.committed).issue_book 13 3 4).2.committed.loans.filter
          (fun l => l.user_id == 3 && l.return_date.isNone)).length)) =
    (none, true, 4) := by decide

/-- Claim C4 fails on the code (evaluation at the failing input): loading a
store that has one open loan yields a user cache whose only user holds an
empty borrowed list, although the open loans of that user reference book 1 —
the held set is not reconstructed from open loans. -/
theorem load_does_not_rebuild_borrowed :
    (let db : DB := { authors := [AuthorRow.mk 1 "A" "b"],
                      books := [BookRow.mk 1 "T" 1 2000 "выдана"],
                      users := [UserRow.mk 1 "U"],
                      loans := [LoanRow.mk 1 1 1 0 none],
                      next_author_id := 2, next_book_id := 2,
                      next_user_id := 2, next_loan_id := 2 }
     let s := construct db
     (s.users.map (fun a => (s.user_at a).borrowed),
      (s.committed.loans.filter
          (fun l => l.user_id == 1 && l.return_date.isNone)).map (fun l => l.book_id))) =
    ([[]], [1]) := by decide

/-! ## Claim C5: cache versus durable state -/

/-- After `self._books = self._load_books()`, the rows readable through
`get_books()` are exactly the projections of the freshly loaded objects. -/
theorem cache_book_rows_reload (s : LS) :
    (s.reload_books).cache_book_rows =
      (load_book_objs s.pending).map
        (fun b => BookRow.mk b.id b.title b.author.id b.year b.status) := by
  have h2 : (s.reload_books).cache_book_rows =
      ((s.reload_books).books.map (fun a => (s.reload_books).book_at a)).map
        (fun b => BookRow.mk b.id b.title b.author.id b.year b.status) := by
    rw [List.map_map]
    rfl
  rw [h2]
  have h3 : (s.reload_books).books.map (fun a => (s.reload_books).book_at a) =
      load_book_objs s.pending := by
    unfold LS.reload_books LS.book_at
    exact map_getD_range' BookObj.default0 (load_book_objs s.pending) s.book_heap
  rw [h3]

theorem commit_reload_books_cache (s : LS) (p : DB) :
    (s.commit_and_reload_books p).cache_book_rows =
      (load_book_objs p).map (fun b => BookRow.mk b.id b.title b.author.id b.year b.status) :=
  cache_book_rows_reload _

theorem commit_reload_books_pending (s : LS) (p : DB) :
    (s.commit_and_reload_books p).pending = p := rfl

theorem commit_reload_books_committed (s : LS) (p : DB) :
    (s.commit_and_reload_books p).committed = p := rfl

/-- When every stored book's author resolves, `_load_books` drops nothing and
reproduces the stored rows exactly. -/
theorem load_book_objs_map_rows (db : DB)
    (h : ∀ r ∈ db.books, (db.get_author_by_id r.author_id).isSome = true) :
    (load_book_objs db).map (fun b => BookRow.mk b.id b.title b.author.id b.year b.status) =
      db.books := by
  have main : ∀ rows : List BookRow,
      (∀ r ∈ rows, (db.get_author_by_id r.author_id).isSome = true) →
      ((rows.filterMap (fun b => (db.get_author_by_id b.author_id).map
          (fun a => (⟨b.id, b.title, a, b.year, b.status⟩ : BookObj)))).map
        (fun b => BookRow.mk b.id b.title b.author.id b.year b.status)) = rows := by
    intro rows
    induction rows with
    | nil => intro _; rfl
    | cons r rs ih =>
      intro h2
      obtain ⟨a, ha⟩ := Option.isSome_iff_exists.1 (h2 r (List.mem_cons_self r rs))
      have haid : a.id = r.author_id := by
        have := List.find?_some ha
        simpa using this
      rw [List.filterMap_cons, ha]
      simp only [Option.map_some', List.map_cons]
      rw [haid]
      rw [ih (fun x hx => h2 x (List.mem_cons_of_mem r hx))]
  exact main db.books h

theorem add_book_cache_fields (s : LS) (t an ab : String) (y : Int) (hy : 0 < y) :
    ((s.add_book t an ab y).2).cache_book_rows =
      (load_book_objs ((s.add_book t an ab y).2).pending).map
        (fun b => BookRow.mk b.id b.title b.author.id b.year b.status)
    ∧ ((s.add_book t an ab y).2).authors = ((s.add_book t an ab y).2).pending.authors
    ∧ ((s.add_book t an ab y).2).committed = ((s.add_book t an ab y).2).pending := by
  have hneg : ¬ (y ≤ 0) := by omega
  refine ⟨?_, ?_, ?_⟩ <;>
    rcases hf : s.pending.authors.find? (fun x => x.name == an) with _ | a <;>
    · simp only [LS.add_book, hf, hneg, if_false, ite_false]
      try exact commit_reload_books_cache _ _
      try rfl

theorem remove_book_cache_fields (s : LS) (bid : Nat) :
    ((s.remove_book bid).2).cache_book_rows =
      (load_book_objs ((s.remove_book bid).2).pending).map
        (fun b => BookRow.mk b.id b.title b.author.id b.year b.status)
    ∧ ((s.remove_book bid).2).committed = ((s.remove_book bid).2).pending :=
  ⟨commit_reload_books_cache _ _, rfl⟩

theorem edit_book_tail_cache_fields (s : LS) (bid : Nat) (ab : Option String) (p : DB) :
    ∀ s2 r, s.edit_book_tail bid ab p = .ok s2 r →
      s2.cache_book_rows =
        (load_book_objs s2.pending).map
          (fun b => BookRow.mk b.id b.title b.author.id b.year b.status)
      ∧ s2.committed = s2.pending := by
  intro s2 r h
  unfold LS.edit_book_tail at h
  rcases ab with _ | b
  · injection h with h1 h2
    subst h1
    exact ⟨commit_reload_books_cache _ _, rfl⟩
  · rcases hfind : (p.books.find? (fun rr => rr.id == bid)).map (fun rr => rr.author_id) with _ | aid <;>
    · rw [hfind] at h
      injection h with h1 h2
      subst h1
      exact ⟨commit_reload_books_cache _ _, rfl⟩

theorem edit_book_ok_cache_fields (s : LS) (bid : Nat) (t : Option String) (y : Option Int)
    (ab : Option String) :
    ∀ s2 r, s.edit_book bid t y ab = .ok s2 r →
      s2.cache_book_rows =
        (load_book_objs s2.pending).map
          (fun b => BookRow.mk b.id b.title b.author.id b.year b.status)
      ∧ s2.committed = s2.pending := by
  intro s2 r h
  unfold LS.edit_book at h
  rcases y with _ | y0
  · dsimp only at h
    exact edit_book_tail_cache_fields _ _ _ _ s2 r h
  · dsimp only at h
    by_cases hy : y0 > 0
    · rw [if_pos hy] at h
      exact edit_book_tail_cache_fields _ _ _ _ s2 r h
    · rw [if_neg hy] at h
      exact EditResult.noConfusion h

/-- Claim C5 amended: the consistency contract holds only for the calls that
end by reloading the book (and, for `add_book`, author) cache — after
`add_book`, `remove_book` and a successful `edit_book` the rows readable
through `get_books()` equal the stored book rows (assuming the stored books'
authors resolve, the referential invariant), and after `add_book` the author
cache equals the stored author rows. The other mutators update caches in
place and can leave stale fields (see the divergence theorem). -/
theorem cache_sync_after_book_mutations (s : LS) :
    (∀ t an ab y, 0 < y →
       (∀ r ∈ ((s.add_book t an ab y).2).committed.books,
           ((((s.add_book t an ab y).2).committed).get_author_by_id r.author_id).isSome = true) →
       ((s.add_book t an ab y).2).cache_book_rows = ((s.add_book t an ab y).2).committed.books
       ∧ ((s.add_book t an ab y).2).authors = ((s.add_book t an ab y).2).committed.authors)
  ∧ (∀ bid,
       (∀ r ∈ ((s.remove_book bid).2).committed.books,
           ((((s.remove_book bid).2).committed).get_author_by_id r.author_id).isSome = true) →
       ((s.remove_book bid).2).cache_book_rows = ((s.remove_book bid).2).committed.books)
  ∧ (∀ bid t y ab s2 r, s.edit_book bid t y ab = .ok s2 r →
       (∀ rr ∈ s2.committed.books, ((s2.committed).get_author_by_id rr.author_id).isSome = true) →
       s2.cache_book_rows = s2.committed.books) := by
  refine ⟨?_, ?_, ?_⟩
  · intro t an ab y hy hres
    obtain ⟨hc, ha, he⟩ := add_book_cache_fields s t an ab y hy
    rw [he] at hres ⊢
    exact ⟨by rw [hc, load_book_objs_map_rows _ hres], by rw [ha]⟩
  · intro bid hres
    obtain ⟨hc, he⟩ := remove_book_cache_fields s bid
    rw [he] at hres ⊢
    rw [hc, load_book_objs_map_rows _ hres]
  · intro bid t y ab s2 r h hres
    obtain ⟨hc, he⟩ := edit_book_ok_cache_fields s bid t y ab s2 r h
    rw [he] at hres ⊢
    rw [hc, load_book_objs_map_rows _ hres]

/-- Witness for C5 (amended): a concrete `add_book` on the demo store leaves
the book and author caches equal to the stored rows. -/
theorem cache_sync_after_book_mutations_witness :
    (((construct DB.empty).add_book "B1" "A" "bio" 2000).2).cache_book_rows =
      (((construct DB.empty).add_book "B1" "A" "bio" 2000).2).committed.books
    ∧ (((construct DB.empty).add_book "B1" "A" "bio" 2000).2).authors =
      (((construct DB.empty).add_book "B1" "A" "bio" 2000).2).committed.authors :=
  (cache_sync_after_book_mutations (construct DB.empty)).1 "B1" "A" "bio" 2000 (by decide)
    (by decide)

/-- Counterexample to claim C5 as stated: issue demo book 1, rename it via
`edit_book` (which rebuilds the book cache with fresh objects), then return
the loan — `return_book` updates the old object and the store, so
`get_books()` still reports book 1 as `"выдана"` while the stored row says
`"доступна"`. -/
theorem cache_diverges_from_store :
    (let s := construct DB.empty
     let s := (s.issue_book 10 1 1).2
     let s2 := match s.edit_book 1 (some "X") none none with
       | .ok s2 _ => s2
       | .raised s2 => s2
     let s3 := (s2.return_book 20 1).2
     (s3.cache_book_rows.map (fun r => (r.id, r.status)),
      s3.committed.books.map (fun r => (r.id, r.status)))) =
    ([(1, "выдана"), (2, "доступна")], [(1, "доступна"), (2, "доступна")]) := by decide

/-! ## Claim C2: at most one open loan per book, over all reachable states -/

/-- The book id a cached loan refers to, read through its `Book` object. -/
def LS.loan_book_id (s : LS) (l : LoanObj) : Nat := (s.book_at l.book_ref).id

/-- The state `edit_book` leaves behind, whether it returns or raises. -/
def edit_book_state (s : LS) (bid : Nat) (t : Option String) (y : Option Int)
    (ab : Option String) : LS :=
  match s.edit_book bid t y ab with
  | .ok s2 _ => s2
  | .raised s2 => s2

/-- One mutating engine call (`add_book`, `remove_book`, `edit_book`,
`register_user`, `edit_user`, `delete_user`, `issue_book`, `return_book`),
with arbitrary arguments and clock. -/
inductive Step : LS → LS → Prop where
  | add_book (s : LS) (t an ab : String) (y : Int) : Step s (s.add_book t an ab y).2
  | remove_book (s : LS) (bid : Nat) : Step s (s.remove_book bid).2
  | edit_book (s : LS) (bid : Nat) (t : Option String) (y : Option Int) (ab : Option String) :
      Step s (edit_book_state s bid t y ab)
  | register_user (s : LS) (name : String) : Step s (s.register_user name).2
  | edit_user (s : LS) (uid : Nat) (name : String) : Step s (s.edit_user uid name).2
  | delete_user (s : LS) (uid : Nat) : Step s (s.delete_user uid).2
  | issue_book (s : LS) (now : Int) (uid bid : Nat) : Step s (s.issue_book now uid bid).2
  | return_book (s : LS) (now : Int) (lid : Nat) : Step s (s.return_book now lid).2

/-- Reflexive-transitive closure of `Step`. -/
inductive Reachable : LS → LS → Prop where
  | refl (s : LS) : Reachable s s
  | step {s0 s1 s2 : LS} : Reachable s0 s1 → Step s1 s2 → Reachable s0 s2

/-- The inductive consistency invariant of an engine state: the referential
invariants of the data model (at most one open loan per book, an on-loan
status wherever an open loan points, id freshness and uniqueness) together
with the heap/cache bookkeeping that makes them stable under every engine
call. -/
structure Consistent (s : LS) : Prop where
  open_pairwise : s.loans.Pairwise (fun l1 l2 =>
    l1.return_date = none → l2.return_date = none → s.loan_book_id l1 ≠ s.loan_book_id l2)
  db_marked : ∀ l ∈ s.loans, l.return_date = none →
    ∀ r ∈ s.pending.books, r.id = s.loan_book_id l → r.status = "выдана"
  cache_marked : ∀ l ∈ s.loans, l.return_date = none →
    ∀ a ∈ s.books, (s.book_at a).id = s.loan_book_id l → (s.book_at a).status = "выдана"
  open_id_lt : ∀ l ∈ s.loans, l.return_date = none →
    s.loan_book_id l < s.pending.next_book_id
  db_ids_lt : ∀ r ∈ s.pending.books, r.id < s.pending.next_book_id
  db_ids_nodup : (s.pending.books.map (fun r => r.id)).Nodup
  cache_ids_nodup : (s.books.map (fun a => (s.book_at a).id)).Nodup
  cache_ids_lt : ∀ a ∈ s.books, (s.book_at a).id < s.pending.next_book_id
  loan_ref_lt : ∀ l ∈ s.loans, l.book_ref < s.book_heap.length
  cache_ref_lt : ∀ a ∈ s.books, a < s.book_heap.length
  committed_pairs : s.committed.books.map (fun r => (r.id, r.status)) =
    s.pending.books.map (fun r => (r.id, r.status))
  committed_next : s.committed.next_book_id = s.pending.next_book_id

/-- Every loaded `Book` object mirrors a stored row's id and status. -/
theorem mem_load_book_objs (db : DB) :
    ∀ o ∈ load_book_objs db, ∃ r ∈ db.books, o.id = r.id ∧ o.status = r.status := by
  intro o ho
  obtain ⟨r, hr, hmap⟩ := List.mem_filterMap.1 ho
  rcases h2 : db.get_author_by_id r.author_id with _ | a
  · rw [h2] at hmap
    exact Option.noConfusion hmap
  · rw [h2] at hmap
    injection hmap with h3
    exact ⟨r, hr, by rw [← h3], by rw [← h3]⟩

/-- The loaded objects' ids form a sublist of the stored rows' ids. -/
theorem load_book_objs_ids_sublist (db : DB) :
    ((load_book_objs db).map (fun o => o.id)).Sublist (db.books.map (fun r => r.id)) := by
  have main : ∀ rows : List BookRow,
      ((rows.filterMap (fun b => (db.get_author_by_id b.author_id).map
          (fun a => (⟨b.id, b.title, a, b.year, b.status⟩ : BookObj)))).map
        (fun o => o.id)).Sublist (rows.map (fun r => r.id)) := by
    intro rows
    induction rows with
    | nil => exact List.Sublist.refl _
    | cons r rs ih =>
      rw [List.filterMap_cons]
      rcases h2 : db.get_author_by_id r.author_id with _ | a
      · exact (List.map_cons _ r _ ▸ List.Sublist.cons _ ih)
      · simp only [Option.map_some', List.map_cons]
        exact List.Sublist.cons₂ _ ih
  exact main db.books

/-- Reading the reloaded cache back gives exactly the loaded objects. -/
theorem reload_books_objs (s : LS) :
    (s.reload_books).books.map (fun a => (s.reload_books).book_at a) =
      load_book_objs s.pending := by
  unfold LS.reload_books LS.book_at
  exact map_getD_range' BookObj.default0 (load_book_objs s.pending) s.book_heap

theorem mem_range'_lt {a start len : Nat} (h : a ∈ List.range' start len) : a < start + len := by
  obtain ⟨i, hi, rfl⟩ := List.mem_range'.1 h
  omega

/-- Membership in the closed-loan update. -/
theorem mem_set_loan_return (lid : Nat) (d : Int) :
    ∀ (ls : List LoanObj) (l2 : LoanObj), l2 ∈ set_loan_return ls lid d →
      l2 ∈ ls ∨ ∃ l3 ∈ ls, l2 = { l3 with return_date := some d } := by
  intro ls
  induction ls with
  | nil => intro l2 h; exact absurd h (List.not_mem_nil l2)
  | cons a as ih =>
    intro l2 h
    by_cases ha : (a.id == lid) = true
    · simp only [set_loan_return, ha, if_true, ite_true] at h
      rcases List.mem_cons.1 h with rfl | h3
      · exact Or.inr ⟨a, List.mem_cons_self a as, rfl⟩
      · exact Or.inl (List.mem_cons_of_mem a h3)
    · rw [Bool.not_eq_true] at ha
      simp only [set_loan_return, ha, Bool.false_eq_true, if_false, ite_false] at h
      rcases List.mem_cons.1 h with rfl | h3
      · exact Or.inl (List.mem_cons_self l2 as)
      · rcases ih l2 h3 with h4 | ⟨l3, h5, h6⟩
        · exact Or.inl (List.mem_cons_of_mem a h4)
        · exact Or.inr ⟨l3, List.mem_cons_of_mem a h5, h6⟩

/-- `Pairwise` survives closing the first matching loan, for any relation that
is insensitive to closing either side. -/
theorem pairwise_set_loan_return (P : LoanObj → LoanObj → Prop) (lid : Nat) (d : Int)
    (h1 : ∀ (l l2 : LoanObj), P { l with return_date := some d } l2)
    (h2 : ∀ (l1 l : LoanObj), P l1 l → P l1 { l with return_date := some d }) :
    ∀ ls : List LoanObj, ls.Pairwise P → (set_loan_return ls lid d).Pairwise P := by
  intro ls
  induction ls with
  | nil => intro h; exact h
  | cons a as ih =>
    intro hp
    rw [List.pairwise_cons] at hp
    by_cases ha : (a.id == lid) = true
    · simp only [set_loan_return, ha, if_true, ite_true]
      exact List.Pairwise.cons (fun x _ => h1 a x) hp.2
    · rw [Bool.not_eq_true] at ha
      simp only [set_loan_return, ha, Bool.false_eq_true, if_false, ite_false]
      refine List.Pairwise.cons ?_ (ih hp.2)
      intro x hx
      rcases mem_set_loan_return lid d as x hx with h3 | ⟨l3, h4, rfl⟩
      · exact hp.1 x h3
      · exact h2 a l3 (hp.1 l3 h4)

/-- After closing the loan found by id, no loan that is still open shares its
book key. -/
theorem open_after_close (g : LoanObj → Nat) (lid : Nat) (d : Int) :
    ∀ (ls : List LoanObj) (l : LoanObj),
      ls.Pairwise (fun l1 l2 => l1.return_date = none → l2.return_date = none → g l1 ≠ g l2) →
      ls.find? (fun x => x.id == lid) = some l → l.return_date = none →
      ∀ l2 ∈ set_loan_return ls lid d, l2.return_date = none → g l2 ≠ g l := by
  intro ls
  induction ls with
  | nil => intro l _ hf; exact absurd hf (by simp)
  | cons a as ih =>
    intro l hp hf ho l2 h2 ho2
    rw [List.pairwise_cons] at hp
    by_cases ha : (a.id == lid) = true
    · rw [@List.find?_cons_of_pos _ (fun x => x.id == lid) a as ha] at hf
      injection hf with hf2
      subst hf2
      simp only [set_loan_return, ha, if_true, ite_true] at h2
      rcases List.mem_cons.1 h2 with rfl | h3
      · exact absurd ho2 (by simp)
      · intro heq
        exact hp.1 l2 h3 ho ho2 heq.symm
    · rw [@List.find?_cons_of_neg _ (fun x => x.id == lid) a as ha] at hf
      rw [Bool.not_eq_true] at ha
      simp only [set_loan_return, ha, Bool.false_eq_true, if_false, ite_false] at h2
      rcases List.mem_cons.1 h2 with rfl | h3
      · exact hp.1 l (List.mem_of_find?_eq_some hf) ho2 ho
      · exact ih l hp.2 hf ho l2 h3 ho2

/-- A pairwise-incompatible predicate selects at most one element. -/
theorem length_filter_le_one {α : Type _} (p : α → Bool) :
    ∀ ls : List α, ls.Pairwise (fun x y => ¬(p x = true ∧ p y = true)) →
      (ls.filter p).length ≤ 1 := by
  intro ls
  induction ls with
  | nil => intro _; simp
  | cons a as ih =>
    intro hp
    rw [List.pairwise_cons] at hp
    by_cases ha : p a = true
    · rw [List.filter_cons_of_pos ha]
      have h0 : as.filter p = [] :=
        List.filter_eq_nil_iff.2 (fun x hx hpx => hp.1 x hx ⟨ha, hpx⟩)
      rw [h0]
      simp
    · rw [List.filter_cons_of_neg ha]
      exact ih hp.2

theorem books_pairs_ids {A B : List BookRow}
    (h : A.map (fun r => (r.id, r.status)) = B.map (fun r => (r.id, r.status))) :
    A.map (fun r => r.id) = B.map (fun r => r.id) := by
  have h2 := congrArg (List.map Prod.fst) h
  rw [List.map_map, List.map_map] at h2
  exact h2

theorem books_pairs_mem {A B : List BookRow}
    (h : A.map (fun r => (r.id, r.status)) = B.map (fun r => (r.id, r.status))) :
    ∀ r ∈ A, ∃ r0 ∈ B, r.id = r0.id ∧ r.status = r0.status := by
  intro r hr
  have h2 : (r.id, r.status) ∈ B.map (fun r => (r.id, r.status)) := by
    rw [← h]
    exact List.mem_map_of_mem _ hr
  obtain ⟨r0, h0, he⟩ := List.mem_map.1 h2
  injection he with e1 e2
  exact ⟨r0, h0, e1.symm, e2.symm⟩

/-- The id stored in a heap slot is not changed by a status write. -/
theorem id_getD_set_status (h : List BookObj) (ba r : Nat) (st : String) :
    ((h.set ba { h.getD ba BookObj.default0 with status := st }).getD r BookObj.default0).id =
      (h.getD r BookObj.default0).id := by
  by_cases hr : ba = r
  · subst hr
    by_cases hlen : ba < h.length
    · rw [getD_set_self _ _ _ _ hlen]
    · rw [List.getD_eq_default _ _ (by simpa [List.length_set] using Nat.le_of_not_lt hlen),
        List.getD_eq_default _ _ (Nat.le_of_not_lt hlen)]
  · rw [getD_set_ne _ _ _ _ _ hr]

/-- `Consistent` only reads the book heap, the book cache, the loans and the
book table; states agreeing there (with a committed table matching pending on
ids and statuses) are interchangeable. -/
theorem consistent_congr {s s' : LS}
    (hh : s'.book_heap = s.book_heap)
    (hbk : s'.books = s.books)
    (hln : s'.loans = s.loans)
    (hpb : s'.pending.books = s.pending.books)
    (hpn : s'.pending.next_book_id = s.pending.next_book_id)
    (hcb : s'.committed.books.map (fun r => (r.id, r.status)) =
      s'.pending.books.map (fun r => (r.id, r.status)))
    (hcn : s'.committed.next_book_id = s'.pending.next_book_id)
    (hc : Consistent s) : Consistent s' := by
  have hba : ∀ a, s'.book_at a = s.book_at a := fun a => by
    rw [LS.book_at, LS.book_at, hh]
  have hlb : ∀ l, s'.loan_book_id l = s.loan_book_id l := fun l => by
    rw [LS.loan_book_id, LS.loan_book_id, hba]
  refine ⟨?_, ?_, ?_, ?_, ?_, ?_, ?_, ?_, ?_, ?_, hcb, hcn⟩
  · rw [hln]
    exact List.Pairwise.imp (fun h ho1 ho2 => by rw [hlb, hlb]; exact h ho1 ho2)
      hc.open_pairwise
  · intro l hl ho r hr hid
    rw [hln] at hl
    rw [hpb] at hr
    rw [hlb] at hid
    exact hc.db_marked l hl ho r hr hid
  · intro l hl ho a ha hid
    rw [hln] at hl
    rw [hbk] at ha
    rw [hba] at hid ⊢
    rw [hlb] at hid
    exact hc.cache_marked l hl ho a ha hid
  · intro l hl ho
    rw [hln] at hl
    rw [hlb, hpn]
    exact hc.open_id_lt l hl ho
  · intro r hr
    rw [hpb] at hr
    rw [hpn]
    exact hc.db_ids_lt r hr
  · rw [hpb]
    exact hc.db_ids_nodup
  · have h2 : (fun a => (s'.book_at a).id) = (fun a => (s.book_at a).id) :=
      funext (fun a => by rw [hba])
    rw [hbk, h2]
    exact hc.cache_ids_nodup
  · intro a ha
    rw [hbk] at ha
    rw [hba, hpn]
    exact hc.cache_ids_lt a ha
  · intro l hl
    rw [hln] at hl
    rw [hh]
    exact hc.loan_ref_lt l hl
  · intro a ha
    rw [hbk] at ha
    rw [hh]
    exact hc.cache_ref_lt a ha

theorem consistent_register_user (s : LS) (name : String) (hc : Consistent s) :
    Consistent ((s.register_user name).2) :=
  consistent_congr (s := s) rfl rfl rfl rfl rfl rfl rfl hc

theorem consistent_delete_user (s : LS) (uid : Nat) (hc : Consistent s) :
    Consistent ((s.delete_user uid).2) :=
  consistent_congr (s := s) rfl rfl rfl rfl rfl rfl rfl hc

theorem consistent_edit_user (s : LS) (uid : Nat) (name : String) (hc : Consistent s) :
    Consistent ((s.edit_user uid name).2) := by
  refine consistent_congr (s := s) ?_ ?_ ?_ ?_ ?_ ?_ ?_ hc <;>
  · unfold LS.edit_user
    dsimp only
    split <;> rfl

/-- Committing a book-table state `p` and reloading the book cache preserves
consistency, provided every row of `p` either keeps the id/status of a
current pending row or is a fresh-id row, ids stay bounded and unique, and
the id counter does not go backwards. -/
theorem consistent_commit_reload (s : LS) (p : DB) (hc : Consistent s)
    (hrows : ∀ r ∈ p.books,
      (∃ r0 ∈ s.pending.books, r.id = r0.id ∧ r.status = r0.status) ∨
        s.pending.next_book_id ≤ r.id)
    (hlt : ∀ r ∈ p.books, r.id < p.next_book_id)
    (hnodup : (p.books.map (fun r => r.id)).Nodup)
    (hnext : s.pending.next_book_id ≤ p.next_book_id) :
    Consistent (s.commit_and_reload_books p) := by
  have hpend : (s.commit_and_reload_books p).pending = p := rfl
  have hloans : (s.commit_and_reload_books p).loans = s.loans := rfl
  have hheap : (s.commit_and_reload_books p).book_heap = s.book_heap ++ load_book_objs p := rfl
  have hbooks : (s.commit_and_reload_books p).books =
      List.range' s.book_heap.length (load_book_objs p).length := rfl
  have hobjs : (s.commit_and_reload_books p).books.map
      (fun a => (s.commit_and_reload_books p).book_at a) = load_book_objs p := by
    have h := reload_books_objs (({ s with pending := p }).commit)
    exact h
  have hat : ∀ l ∈ s.loans, (s.commit_and_reload_books p).book_at l.book_ref =
      s.book_at l.book_ref := by
    intro l hl
    rw [LS.book_at, LS.book_at, hheap]
    exact getD_append_lt _ _ _ _ (hc.loan_ref_lt l hl)
  have hlb : ∀ l ∈ s.loans, (s.commit_and_reload_books p).loan_book_id l = s.loan_book_id l := by
    intro l hl
    rw [LS.loan_book_id, LS.loan_book_id, hat l hl]
  have hmemobj : ∀ a ∈ (s.commit_and_reload_books p).books,
      (s.commit_and_reload_books p).book_at a ∈ load_book_objs p := by
    intro a ha
    rw [← hobjs]
    exact List.mem_map_of_mem _ ha
  have hstat : ∀ l ∈ s.loans, l.return_date = none → ∀ r ∈ p.books,
      r.id = s.loan_book_id l → r.status = "выдана" := by
    intro l hl ho r hr hid
    rcases hrows r hr with ⟨r0, h0, e1, e2⟩ | hfresh
    · rw [e2]
      exact hc.db_marked l hl ho r0 h0 (by rw [← e1, hid])
    · have h4 := hc.open_id_lt l hl ho
      omega
  refine ⟨?_, ?_, ?_, ?_, ?_, ?_, ?_, ?_, ?_, ?_, rfl, rfl⟩
  · rw [hloans]
    exact List.Pairwise.imp_of_mem
      (fun ha hb h ho1 ho2 => by
        rw [hlb _ ha, hlb _ hb]
        exact h ho1 ho2)
      hc.open_pairwise
  · intro l hl ho r hr hid
    rw [hloans] at hl
    rw [hpend] at hr
    rw [hlb l hl] at hid
    exact hstat l hl ho r hr hid
  · intro l hl ho a ha hid
    rw [hloans] at hl
    rw [hlb l hl] at hid
    obtain ⟨r, hr, e1, e2⟩ := mem_load_book_objs p _ (hmemobj a ha)
    rw [e2]
    exact hstat l hl ho r hr (by rw [← e1, hid])
  · intro l hl ho
    rw [hloans] at hl
    rw [hlb l hl, hpend]
    exact Nat.lt_of_lt_of_le (hc.open_id_lt l hl ho) hnext
  · intro r hr
    rw [hpend] at hr ⊢
    exact hlt r hr
  · rw [hpend]
    exact hnodup
  · have h7 : (s.commit_and_reload_books p).books.map
        (fun a => ((s.commit_and_reload_books p).book_at a).id) =
        (load_book_objs p).map (fun o => o.id) := by
      rw [show (fun a => ((s.commit_and_reload_books p).book_at a).id) =
          (fun o : BookObj => o.id) ∘ (fun a => (s.commit_and_reload_books p).book_at a) from rfl,
        ← List.map_map, hobjs]
    rw [h7]
    exact (load_book_objs_ids_sublist p).nodup hnodup
  · intro a ha
    rw [hpend]
    obtain ⟨r, hr, e1, _⟩ := mem_load_book_objs p _ (hmemobj a ha)
    rw [e1]
    exact hlt r hr
  · intro l hl
    rw [hloans] at hl
    rw [hheap, List.length_append]
    exact Nat.lt_of_lt_of_le (hc.loan_ref_lt l hl) (Nat.le_add_right _ _)
  · intro a ha
    rw [hbooks] at ha
    rw [hheap, List.length_append]
    exact mem_range'_lt ha

/-- A row transformer that keeps ids and statuses keeps the (id, status)
projection of the table. -/
theorem books_map_pairs (f : BookRow → BookRow) (hid : ∀ r, (f r).id = r.id)
    (hst : ∀ r, (f r).status = r.status) (books : List BookRow) :
    (books.map f).map (fun r => (r.id, r.status)) =
      books.map (fun r => (r.id, r.status)) := by
  rw [List.map_map]
  exact List.map_congr_left (fun r _ => by
    show ((f r).id, (f r).status) = (r.id, r.status)
    rw [hid, hst])

/-- Swapping the connection-pending state for one whose book table keeps the
ids and statuses (and the id counter) preserves consistency. -/
theorem consistent_set_pending (s : LS) (p : DB) (hc : Consistent s)
    (hb : p.books.map (fun r => (r.id, r.status)) =
      s.pending.books.map (fun r => (r.id, r.status)))
    (hn : p.next_book_id = s.pending.next_book_id) :
    Consistent ({ s with pending := p }) := by
  refine ⟨hc.open_pairwise, ?_, hc.cache_marked, ?_, ?_, ?_, hc.cache_ids_nodup, ?_,
    hc.loan_ref_lt, hc.cache_ref_lt, ?_, ?_⟩
  · intro l hl ho r hr hid
    obtain ⟨r0, h0, e1, e2⟩ := books_pairs_mem hb r hr
    rw [e2]
    exact hc.db_marked l hl ho r0 h0 (by rw [← e1]; exact hid)
  · intro l hl ho
    show s.loan_book_id l < p.next_book_id
    rw [hn]
    exact hc.open_id_lt l hl ho
  · intro r hr
    show r.id < p.next_book_id
    obtain ⟨r0, h0, e1, _⟩ := books_pairs_mem hb r hr
    rw [e1, hn]
    exact hc.db_ids_lt r0 h0
  · show (p.books.map (fun r => r.id)).Nodup
    rw [books_pairs_ids hb]
    exact hc.db_ids_nodup
  · intro a ha
    show (s.book_at a).id < p.next_book_id
    rw [hn]
    exact hc.cache_ids_lt a ha
  · show s.committed.books.map (fun r => (r.id, r.status)) =
      p.books.map (fun r => (r.id, r.status))
    rw [hb]
    exact hc.committed_pairs
  · show s.committed.next_book_id = p.next_book_id
    rw [hn]
    exact hc.committed_next

/-- `rollback` (resetting pending to committed) preserves consistency. -/
theorem consistent_set_pending_committed (s : LS) (hc : Consistent s) :
    Consistent ({ s with pending := s.committed }) :=
  consistent_set_pending s s.committed hc hc.committed_pairs hc.committed_next

/-- Committing a pairs-preserving book table and reloading preserves
consistency. -/
theorem consistent_commit_reload_pairs (s : LS) (p : DB) (hc : Consistent s)
    (hb : p.books.map (fun r => (r.id, r.status)) =
      s.pending.books.map (fun r => (r.id, r.status)))
    (hn : p.next_book_id = s.pending.next_book_id) :
    Consistent (s.commit_and_reload_books p) := by
  refine consistent_commit_reload s p hc
    (fun r hr => Or.inl (books_pairs_mem hb r hr)) ?_ ?_ (by omega)
  · intro r hr
    obtain ⟨r0, h0, e1, _⟩ := books_pairs_mem hb r hr
    rw [e1, hn]
    exact hc.db_ids_lt r0 h0
  · rw [books_pairs_ids hb]
    exact hc.db_ids_nodup

/-- Obligations of `consistent_commit_reload` for appending one fresh row. -/
theorem add_rows_obligations (s : LS) (hc : Consistent s) (t : String) (aid : Nat) (y : Int) :
    (∀ r ∈ s.pending.books ++ [BookRow.mk s.pending.next_book_id t aid y "доступна"],
        (∃ r0 ∈ s.pending.books, r.id = r0.id ∧ r.status = r0.status) ∨
          s.pending.next_book_id ≤ r.id)
    ∧ (∀ r ∈ s.pending.books ++ [BookRow.mk s.pending.next_book_id t aid y "доступна"],
        r.id < s.pending.next_book_id + 1)
    ∧ (((s.pending.books ++
          [BookRow.mk s.pending.next_book_id t aid y "доступна"]).map (fun r => r.id)).Nodup) := by
  refine ⟨?_, ?_, ?_⟩
  · intro r hr
    rcases List.mem_append.1 hr with h | h
    · exact Or.inl ⟨r, h, rfl, rfl⟩
    · rw [List.mem_singleton.1 h]
      exact Or.inr (Nat.le_refl _)
  · intro r hr
    rcases List.mem_append.1 hr with h | h
    · exact Nat.lt_succ_of_lt (hc.db_ids_lt r h)
    · rw [List.mem_singleton.1 h]
      exact Nat.lt_succ_self _
  · rw [List.map_append, List.nodup_append]
    refine ⟨hc.db_ids_nodup, by simp, ?_⟩
    intro x hx
    obtain ⟨r, hr, rfl⟩ := List.mem_map.1 hx
    have h2 := hc.db_ids_lt r hr
    intro hmem
    simp only [List.map_cons, List.map_nil, List.mem_singleton] at hmem
    omega

theorem consistent_add_book (s : LS) (t an ab : String) (y : Int) (hc : Consistent s) :
    Consistent ((s.add_book t an ab y).2) := by
  by_cases hy : y ≤ 0
  · rcases hf : s.pending.authors.find? (fun x => x.name == an) with _ | a <;>
    · simp only [LS.add_book, hf, hy, if_true, ite_true]
      exact consistent_set_pending_committed s hc
  · rcases hf : s.pending.authors.find? (fun x => x.name == an) with _ | a
    · obtain ⟨h1, h2, h3⟩ := add_rows_obligations s hc t s.pending.next_author_id y
      simp only [LS.add_book, hf, hy, if_false, ite_false]
      have hcr := consistent_commit_reload s
        { s.pending with
            authors := s.pending.authors ++ [AuthorRow.mk s.pending.next_author_id an ab],
            next_author_id := s.pending.next_author_id + 1,
            books := s.pending.books ++
              [BookRow.mk s.pending.next_book_id t s.pending.next_author_id y "доступна"],
            next_book_id := s.pending.next_book_id + 1 }
        hc h1 h2 h3 (Nat.le_succ _)
      refine consistent_congr ?_ ?_ ?_ ?_ ?_ ?_ ?_ hcr <;> rfl
    · obtain ⟨h1, h2, h3⟩ := add_rows_obligations s hc t a.id y
      simp only [LS.add_book, hf, hy, if_false, ite_false]
      have hcr := consistent_commit_reload s
        { s.pending with
            books := s.pending.books ++
              [BookRow.mk s.pending.next_book_id t a.id y "доступна"],
            next_book_id := s.pending.next_book_id + 1 }
        hc h1 h2 h3 (Nat.le_succ _)
      refine consistent_congr ?_ ?_ ?_ ?_ ?_ ?_ ?_ hcr <;> rfl

theorem consistent_remove_book (s : LS) (bid : Nat) (hc : Consistent s) :
    Consistent ((s.remove_book bid).2) := by
  have h1 : ∀ r ∈ s.pending.books.filter (fun r => !(r.id == bid)),
      (∃ r0 ∈ s.pending.books, r.id = r0.id ∧ r.status = r0.status) ∨
        s.pending.next_book_id ≤ r.id :=
    fun r hr => Or.inl ⟨r, (List.mem_filter.1 hr).1, rfl, rfl⟩
  have h2 : ∀ r ∈ s.pending.books.filter (fun r => !(r.id == bid)),
      r.id < s.pending.next_book_id :=
    fun r hr => hc.db_ids_lt r (List.mem_filter.1 hr).1
  have h3 : ((s.pending.books.filter (fun r => !(r.id == bid))).map (fun r => r.id)).Nodup :=
    ((List.filter_sublist s.pending.books).map _).nodup hc.db_ids_nodup
  exact consistent_commit_reload s
    { s.pending with books := s.pending.books.filter (fun r => !(r.id == bid)) }
    hc h1 h2 h3 (Nat.le_refl _)

/-- `edit_book_tail` never raises. -/
theorem edit_book_tail_no_raise (s : LS) (bid : Nat) (ab : Option String) (p : DB) (s2 : LS) :
    s.edit_book_tail bid ab p = .raised s2 → False := by
  intro h
  unfold LS.edit_book_tail at h
  rcases ab with _ | b
  · exact EditResult.noConfusion h
  · rcases hfind : (p.books.find? (fun rr => rr.id == bid)).map (fun rr => rr.author_id)
        with _ | aid <;>
    · rw [hfind] at h
      exact EditResult.noConfusion h

/-- `edit_book_tail` on a pairs-preserving table yields a consistent state. -/
theorem consistent_edit_tail (s : LS) (bid : Nat) (ab : Option String) (p : DB)
    (hc : Consistent s)
    (hb : p.books.map (fun r => (r.id, r.status)) =
      s.pending.books.map (fun r => (r.id, r.status)))
    (hn : p.next_book_id = s.pending.next_book_id) :
    ∀ s2 r, s.edit_book_tail bid ab p = .ok s2 r → Consistent s2 := by
  intro s2 r h
  unfold LS.edit_book_tail at h
  rcases ab with _ | b
  · injection h with h1 _
    subst h1
    exact consistent_commit_reload_pairs s p hc hb hn
  · rcases hfind : (p.books.find? (fun rr => rr.id == bid)).map (fun rr => rr.author_id)
        with _ | aid <;>
    · rw [hfind] at h
      injection h with h1 _
      subst h1
      exact consistent_commit_reload_pairs s _ hc hb hn

theorem consistent_edit_book (s : LS) (bid : Nat) (t : Option String) (y : Option Int)
    (ab : Option String) (hc : Consistent s) :
    Consistent (edit_book_state s bid t y ab) := by
  have hpresT : ∀ (t0 : String),
      ((s.pending.books.map
          (fun r => if r.id == bid then { r with title := t0 } else r)).map
        (fun r => (r.id, r.status))) = s.pending.books.map (fun r => (r.id, r.status)) := by
    intro t0
    refine books_map_pairs _ ?_ ?_ _ <;>
    · intro r
      by_cases h : (r.id == bid) = true <;> simp [h]
  have hpresY : ∀ (y0 : Int) (books : List BookRow),
      ((books.map (fun r => if r.id == bid then { r with year := y0 } else r)).map
        (fun r => (r.id, r.status))) = books.map (fun r => (r.id, r.status)) := by
    intro y0 books
    refine books_map_pairs _ ?_ ?_ _ <;>
    · intro r
      by_cases h : (r.id == bid) = true <;> simp [h]
  unfold edit_book_state
  cases hres : s.edit_book bid t y ab with
  | ok s2 r =>
    unfold LS.edit_book at hres
    rcases y with _ | y0
    · rcases t with _ | t0 <;> dsimp only at hres
      · exact consistent_edit_tail s bid ab s.pending hc rfl rfl s2 r hres
      · exact consistent_edit_tail s bid ab
          { s.pending with books := s.pending.books.map (fun r => if r.id == bid then { r with title := t0 } else r) }
          hc (hpresT t0) rfl s2 r hres
    · rcases t with _ | t0 <;> dsimp only at hres <;> by_cases hy : y0 > 0
      · rw [if_pos hy] at hres
        exact consistent_edit_tail s bid ab
          { s.pending with books := s.pending.books.map (fun r => if r.id == bid then { r with year := y0 } else r) }
          hc (hpresY y0 s.pending.books) rfl s2 r hres
      · rw [if_neg hy] at hres
        exact EditResult.noConfusion hres
      · rw [if_pos hy] at hres
        refine consistent_edit_tail s bid ab
          { s.pending with books := (s.pending.books.map (fun r => if r.id == bid then { r with title := t0 } else r)).map (fun r => if r.id == bid then { r with year := y0 } else r) }
          hc ?_ rfl s2 r hres
        rw [hpresY y0, hpresT t0]
      · rw [if_neg hy] at hres
        exact EditResult.noConfusion hres
  | raised s2 =>
    unfold LS.edit_book at hres
    rcases y with _ | y0
    · rcases t with _ | t0 <;> dsimp only at hres <;>
        exact absurd hres (fun h => edit_book_tail_no_raise _ _ _ _ _ h)
    · rcases t with _ | t0 <;> dsimp only at hres <;> by_cases hy : y0 > 0
      · rw [if_pos hy] at hres
        exact absurd hres (fun h => edit_book_tail_no_raise _ _ _ _ _ h)
      · rw [if_neg hy] at hres
        injection hres with h1
        subst h1
        exact hc
      · rw [if_pos hy] at hres
        exact absurd hres (fun h => edit_book_tail_no_raise _ _ _ _ _ h)
      · rw [if_neg hy] at hres
        injection hres with h1
        subst h1
        exact consistent_set_pending s
          { s.pending with books := s.pending.books.map (fun r => if r.id == bid then { r with title := t0 } else r) }
          hc (hpresT t0) rfl

theorem consistent_issue_book (s : LS) (now : Int) (uid bid : Nat) (hc : Consistent s) :
    Consistent ((s.issue_book now uid bid).2) := by
  rcases hu : s.find_user_addr uid with _ | ua
  · simp only [LS.issue_book, hu]
    exact hc
  rcases hb : s.find_book_addr bid with _ | ba
  · simp only [LS.issue_book, hu, hb]
    exact hc
  by_cases ha : is_available (s.book_at ba) = true
  case neg =>
    have ha2 : is_available (s.book_at ba) = false := by
      cases h2 : is_available (s.book_at ba)
      · rfl
      · exact absurd h2 ha
    simp only [LS.issue_book, hu, hb, ha2, Bool.not_false, if_true, ite_true]
    exact hc
  by_cases hl : MAX_BOOKS ≤ (s.user_at ua).borrowed.length
  case pos =>
    simp only [LS.issue_book, hu, hb, ha, Bool.not_true, Bool.false_eq_true, if_false,
      ite_false, hl, if_true, ite_true]
    exact hc
  -- success path
  have hbamem : ba ∈ s.books := List.mem_of_find?_eq_some hb
  have hbalt : ba < s.book_heap.length := hc.cache_ref_lt ba hbamem
  have hbaid : (s.book_heap.getD ba BookObj.default0).id = bid := by
    have h2 := List.find?_some hb
    simpa [LS.book_at] using h2
  have hnoopen : ∀ l ∈ s.loans, l.return_date = none →
      (s.book_heap.getD l.book_ref BookObj.default0).id ≠ bid := by
    intro l hl2 ho heq
    have h3 := hc.cache_marked l hl2 ho ba hbamem
      (by simp only [LS.loan_book_id, LS.book_at]; rw [hbaid, heq])
    have ha3 : (s.book_at ba).status = "доступна" := by simpa [is_available] using ha
    rw [LS.book_at] at ha3
    rw [LS.book_at, ha3] at h3
    exact absurd h3 (by decide)
  have hdb := hc.db_marked
  have hcm := hc.cache_marked
  have hoil := hc.open_id_lt
  have hcil := hc.cache_ids_lt
  have hcin := hc.cache_ids_nodup
  have hop := hc.open_pairwise
  simp only [LS.loan_book_id, LS.book_at] at hdb hcm hoil hcil hcin hop
  simp only [LS.issue_book, hu, hb, ha, Bool.not_true, Bool.false_eq_true, if_false,
    ite_false, hl, LS.commit, LS.upd_book, LS.upd_user, DB.set_book_status]
  refine ⟨?_, ?_, ?_, ?_, ?_, ?_, ?_, ?_, ?_, ?_, rfl, rfl⟩
  · -- open_pairwise
    dsimp only
    simp only [LS.loan_book_id, LS.book_at]
    rw [List.pairwise_append]
    refine ⟨?_, by simp, ?_⟩
    · refine List.Pairwise.imp_of_mem ?_ hop
      intro l1 l2 _ _ hP ho1 ho2
      simpa only [id_getD_set_status] using hP ho1 ho2
    · intro l1 h1 l2 h2 ho1 ho2
      rw [List.mem_singleton.1 h2]
      simp only [id_getD_set_status]
      rw [hbaid]
      exact hnoopen l1 h1 ho1
  · -- db_marked
    dsimp only
    intro l hl2 ho r hr hid
    simp only [LS.loan_book_id, LS.book_at, id_getD_set_status] at hid
    obtain ⟨r0, hr0, rfl⟩ := List.mem_map.1 hr
    rcases List.mem_append.1 hl2 with hold | hnew
    · by_cases hr0id : (r0.id == bid) = true
      · rw [if_pos hr0id]
      · rw [if_neg hr0id] at hid ⊢
        exact hdb l hold ho r0 hr0 hid
    · rw [List.mem_singleton.1 hnew] at hid
      simp only at hid
      rw [hbaid] at hid
      by_cases hr0id : (r0.id == bid) = true
      · rw [if_pos hr0id]
      · rw [if_neg hr0id] at hid
        exact absurd (by simpa using hid) (by simpa using hr0id)
  · -- cache_marked
    dsimp only
    intro l hl2 ho a haa hid
    simp only [LS.loan_book_id, LS.book_at, id_getD_set_status] at hid
    simp only [LS.book_at]
    rcases List.mem_append.1 hl2 with hold | hnew
    · by_cases haba : a = ba
      · subst haba
        rw [hbaid] at hid
        exact absurd hid.symm (hnoopen l hold ho)
      · rw [getD_set_ne _ _ _ _ _ (fun h => haba h.symm)]
        exact hcm l hold ho a haa hid
    · rw [List.mem_singleton.1 hnew] at hid
      simp only at hid
      rw [hbaid] at hid
      by_cases haba : a = ba
      · subst haba
        rw [getD_set_self _ _ _ _ hbalt]
      · exact absurd (List.inj_on_of_nodup_map hcin haa hbamem (by rw [hid, hbaid])) haba
  · -- open_id_lt
    dsimp only
    intro l hl2 ho
    simp only [LS.loan_book_id, LS.book_at, id_getD_set_status]
    rcases List.mem_append.1 hl2 with hold | hnew
    · exact hoil l hold ho
    · rw [List.mem_singleton.1 hnew]
      simp only
      rw [hbaid]
      rw [← hbaid]
      exact hcil ba hbamem
  · -- db_ids_lt
    dsimp only
    intro r hr
    obtain ⟨r0, hr0, rfl⟩ := List.mem_map.1 hr
    by_cases hr0id : (r0.id == bid) = true
    · rw [if_pos hr0id]
      exact hc.db_ids_lt r0 hr0
    · rw [if_neg hr0id]
      exact hc.db_ids_lt r0 hr0
  · -- db_ids_nodup
    dsimp only
    have h6 : (s.pending.books.map
          (fun r => if r.id == bid then { r with status := "выдана" } else r)).map
        (fun r => r.id) = s.pending.books.map (fun r => r.id) := by
      rw [List.map_map]
      refine List.map_congr_left ?_
      intro r _
      by_cases h : (r.id == bid) = true
      · show (if r.id == bid then BookRow.mk r.id r.title r.author_id r.year "выдана" else r).id = r.id
        rw [if_pos h]
      · show (if r.id == bid then BookRow.mk r.id r.title r.author_id r.year "выдана" else r).id = r.id
        rw [if_neg h]
    rw [h6]
    exact hc.db_ids_nodup
  · -- cache_ids_nodup
    dsimp only
    simp only [LS.book_at]
    have h7 : (fun a => ((s.book_heap.set ba
          { s.book_heap.getD ba BookObj.default0 with status := "выдана" }).getD a
            BookObj.default0).id) =
        (fun a => (s.book_heap.getD a BookObj.default0).id) :=
      funext (fun a => id_getD_set_status _ _ _ _)
    rw [h7]
    exact hcin
  · -- cache_ids_lt
    dsimp only
    intro a haa
    simp only [LS.book_at, id_getD_set_status]
    exact hcil a haa
  · -- loan_ref_lt
    dsimp only
    intro l hl2
    rw [List.length_set]
    rcases List.mem_append.1 hl2 with hold | hnew
    · exact hc.loan_ref_lt l hold
    · rw [List.mem_singleton.1 hnew]
      exact hbalt
  · -- cache_ref_lt
    dsimp only
    intro a haa
    rw [List.length_set]
    exact hc.cache_ref_lt a haa

theorem consistent_return_book (s : LS) (now : Int) (lid : Nat) (hc : Consistent s) :
    Consistent ((s.return_book now lid).2) := by
  rcases hf : s.loans.find? (fun l => l.id == lid) with _ | l
  · simp only [LS.return_book, hf]
    exact hc
  by_cases ho : l.return_date.isSome = true
  · simp only [LS.return_book, hf, ho, if_true, ite_true]
    exact hc
  have ho2 : l.return_date = none := by
    cases h2 : l.return_date
    · rfl
    · rw [h2] at ho
      exact absurd rfl ho
  have hlmem : l ∈ s.loans := List.mem_of_find?_eq_some hf
  have hreflt : l.book_ref < s.book_heap.length := hc.loan_ref_lt l hlmem
  have hdb := hc.db_marked
  have hcm := hc.cache_marked
  have hoil := hc.open_id_lt
  have hcil := hc.cache_ids_lt
  have hcin := hc.cache_ids_nodup
  have hop := hc.open_pairwise
  simp only [LS.loan_book_id, LS.book_at] at hdb hcm hoil hcil hcin hop
  have hnoother := open_after_close
    (fun x => (s.book_heap.getD x.book_ref BookObj.default0).id) lid now s.loans l hop hf ho2
  have hmem_open : ∀ l2 ∈ set_loan_return s.loans lid now, l2.return_date = none →
      l2 ∈ s.loans := by
    intro l2 h2 ho3
    rcases mem_set_loan_return lid now s.loans l2 h2 with h3 | ⟨l3, _, rfl⟩
    · exact h3
    · exact absurd ho3 (by simp)
  simp only [LS.return_book, hf, ho2, Option.isSome_none, Bool.false_eq_true, if_false,
    ite_false, LS.commit, LS.upd_book, LS.upd_user, DB.set_book_status, LS.book_at]
  refine ⟨?_, ?_, ?_, ?_, ?_, ?_, ?_, ?_, ?_, ?_, rfl, rfl⟩
  · -- open_pairwise
    dsimp only
    simp only [LS.loan_book_id, LS.book_at]
    refine pairwise_set_loan_return _ lid now ?_ ?_ _ ?_
    · intro l0 l2 ho1
      exact absurd ho1 (by simp)
    · intro l1 l0 hP ho1 ho3
      exact absurd ho3 (by simp)
    · refine List.Pairwise.imp ?_ hop
      intro l1 l2 h ho1 ho3
      simpa only [id_getD_set_status] using h ho1 ho3
  · -- db_marked
    dsimp only
    intro l2 hl2 ho3 r hr hid
    simp only [LS.loan_book_id, LS.book_at, id_getD_set_status] at hid
    obtain ⟨r0, hr0, rfl⟩ := List.mem_map.1 hr
    have hB := hnoother l2 hl2 ho3
    have hB2 : (s.book_heap.getD l2.book_ref BookObj.default0).id ≠
        (s.book_heap.getD l.book_ref BookObj.default0).id := hB
    by_cases hr0id : (r0.id == (s.book_heap.getD l.book_ref BookObj.default0).id) = true
    · exfalso
      rw [if_pos hr0id] at hid
      simp only at hid
      rw [beq_iff_eq] at hr0id
      exact hB2 (hid.symm.trans hr0id)
    · rw [if_neg hr0id] at hid ⊢
      exact hdb l2 (hmem_open l2 hl2 ho3) ho3 r0 hr0 hid
  · -- cache_marked
    dsimp only
    intro l2 hl2 ho3 a haa hid
    simp only [LS.loan_book_id, LS.book_at, id_getD_set_status] at hid
    have hB2 : (s.book_heap.getD l2.book_ref BookObj.default0).id ≠
        (s.book_heap.getD l.book_ref BookObj.default0).id := hnoother l2 hl2 ho3
    simp only [LS.book_at]
    by_cases haba : a = l.book_ref
    · subst haba
      exact absurd hid.symm hB2
    · rw [getD_set_ne _ _ _ _ _ (fun h => haba h.symm)]
      exact hcm l2 (hmem_open l2 hl2 ho3) ho3 a haa hid
  · -- open_id_lt
    dsimp only
    intro l2 hl2 ho3
    simp only [LS.loan_book_id, LS.book_at, id_getD_set_status]
    exact hoil l2 (hmem_open l2 hl2 ho3) ho3
  · -- db_ids_lt
    dsimp only
    intro r hr
    obtain ⟨r0, hr0, rfl⟩ := List.mem_map.1 hr
    by_cases hr0id : (r0.id == (s.book_heap.getD l.book_ref BookObj.default0).id) = true
    · rw [if_pos hr0id]
      exact hc.db_ids_lt r0 hr0
    · rw [if_neg hr0id]
      exact hc.db_ids_lt r0 hr0
  · -- db_ids_nodup
    dsimp only
    have h6 : (s.pending.books.map
          (fun r => if r.id == (s.book_heap.getD l.book_ref BookObj.default0).id then
            { r with status := "доступна" } else r)).map (fun r => r.id) =
        s.pending.books.map (fun r => r.id) := by
      rw [List.map_map]
      refine List.map_congr_left ?_
      intro r _
      by_cases h : (r.id == (s.book_heap.getD l.book_ref BookObj.default0).id) = true
      · show (if r.id == (s.book_heap.getD l.book_ref BookObj.default0).id then
            BookRow.mk r.id r.title r.author_id r.year "доступна" else r).id = r.id
        rw [if_pos h]
      · show (if r.id == (s.book_heap.getD l.book_ref BookObj.default0).id then
            BookRow.mk r.id r.title r.author_id r.year "доступна" else r).id = r.id
        rw [if_neg h]
    rw [h6]
    exact hc.db_ids_nodup
  · -- cache_ids_nodup
    dsimp only
    simp only [LS.book_at]
    have h7 : (fun a => ((s.book_heap.set l.book_ref
          { s.book_heap.getD l.book_ref BookObj.default0 with status := "доступна" }).getD a
            BookObj.default0).id) =
        (fun a => (s.book_heap.getD a BookObj.default0).id) :=
      funext (fun a => id_getD_set_status _ _ _ _)
    rw [h7]
    exact hcin
  · -- cache_ids_lt
    dsimp only
    intro a haa
    simp only [LS.book_at, id_getD_set_status]
    exact hcil a haa
  · -- loan_ref_lt
    dsimp only
    intro l2 hl2
    rw [List.length_set]
    rcases mem_set_loan_return lid now s.loans l2 hl2 with h3 | ⟨l3, h4, rfl⟩
    · exact hc.loan_ref_lt l2 h3
    · exact hc.loan_ref_lt l3 h4
  · -- cache_ref_lt
    dsimp only
    intro a haa
    rw [List.length_set]
    exact hc.cache_ref_lt a haa

/-- Every engine call preserves the consistency invariant. -/
theorem consistent_step {s s' : LS} (hc : Consistent s) (hs : Step s s') : Consistent s' := by
  cases hs with
  | add_book t an ab y => exact consistent_add_book s t an ab y hc
  | remove_book bid => exact consistent_remove_book s bid hc
  | edit_book bid t y ab => exact consistent_edit_book s bid t y ab hc
  | register_user name => exact consistent_register_user s name hc
  | edit_user uid name => exact consistent_edit_user s uid name hc
  | delete_user uid => exact consistent_delete_user s uid hc
  | issue_book now uid bid => exact consistent_issue_book s now uid bid hc
  | return_book now lid => exact consistent_return_book s now lid hc

theorem consistent_reachable {s0 s : LS} (h0 : Consistent s0) (hr : Reachable s0 s) :
    Consistent s := by
  induction hr with
  | refl => exact h0
  | step _ h2 ih => exact consistent_step ih h2

/-- Claim C2: in every state reachable by engine operations from a consistent
initial state, each book id is referenced by at most one loan with an absent
return date. -/
theorem single_open_loan_per_book (s0 s : LS) (h0 : Consistent s0)
    (hr : Reachable s0 s) (b : Nat) :
    (s.loans.filter
      (fun l => l.return_date.isNone && (s.loan_book_id l == b))).length ≤ 1 := by
  have hc := consistent_reachable h0 hr
  refine length_filter_le_one _ _ ?_
  refine List.Pairwise.imp ?_ hc.open_pairwise
  intro l1 l2 h
  rintro ⟨h1, h2⟩
  rw [Bool.and_eq_true] at h1 h2
  have ho1 : l1.return_date = none := Option.isNone_iff_eq_none.1 h1.1
  have ho2 : l2.return_date = none := Option.isNone_iff_eq_none.1 h2.1
  have e1 : s.loan_book_id l1 = b := by simpa using h1.2
  have e2 : s.loan_book_id l2 = b := by simpa using h2.2
  exact h ho1 ho2 (e1.trans e2.symm)

/-- Witness for C2: an engine opened on an empty store is consistent, and
after one reachable step (a user registration) the bound holds for book 1. -/
theorem single_open_loan_per_book_witness :
    ((((LS.mk DB.empty DB.empty [] [] [] [] [] []).register_user "U").2).loans.filter
      (fun l => l.return_date.isNone &&
        ((((LS.mk DB.empty DB.empty [] [] [] [] [] []).register_user "U").2).loan_book_id l ==
          1))).length ≤ 1 := by
  refine single_open_loan_per_book (LS.mk DB.empty DB.empty [] [] [] [] [] []) _ ?_
    (Reachable.step (Reachable.refl _) (Step.register_user _ "U")) 1
  exact ⟨List.Pairwise.nil, by simp, by simp, by simp, by simp [DB.empty], by simp [DB.empty],
    by simp, by simp, by simp, by simp, rfl, rfl⟩

end Library
